import Mathlib

/-!
Formal model of the NovelVerse repository (`src/app.py`): the structured
response extractor `extract_json`, the per-chapter adaptation pipeline
`run_pipeline`, the `main` workflow around it, and theorems settling the
specification claims about them.

Conventions of the embedding:
* Python strings are Lean `String`s; most functions work on `List Char`
  (`String.data`) so that Python index arithmetic (`find`, `rfind`,
  slices) is transcribed directly.
* Python whitespace classes are modelled over their ASCII members; the
  source only ever manipulates whitespace coming from these sets.
* Python dicts are insertion-ordered association lists; assignment
  overwrites an existing key in place and appends a fresh key at the end,
  exactly like CPython.
-/

/-! ### Definitions -/

/-- The backtick character (code point 96), the building block of
markdown fences in `extract_json`. -/
def btick : Char := Char.ofNat 96

/-- Python `str.strip()` / regex `\s` whitespace (ASCII members: space,
tab, newline, carriage return, vertical tab, form feed). -/
def isPySpace (c : Char) : Bool :=
  c = ' ' || c = '\t' || c = '\n' || c = '\r' || c = '\x0b' || c = '\x0c'

/-- Whitespace accepted between tokens by Python `json.loads` (space,
tab, newline, carriage return only). -/
def isJsonSpace (c : Char) : Bool :=
  c = ' ' || c = '\t' || c = '\n' || c = '\r'

/-- Python `str.strip()` on a character list. -/
def pyStripList (l : List Char) : List Char :=
  ((l.dropWhile isPySpace).reverse.dropWhile isPySpace).reverse

/-- Python `str.strip()`. -/
def pyStrip (s : String) : String := ⟨pyStripList s.data⟩

/-- Python `str.lower()` over the basic latin letters (species values in
this domain are ASCII words such as "Human"). -/
def pyToLower (s : String) : String := ⟨s.data.map Char.toLower⟩

/-- Index of the first occurrence of the character `c`
(Python `str.find`, with `none` standing for `-1`). -/
def pyFind (c : Char) : List Char → Option Nat
  | [] => none
  | a :: t => if a = c then some 0 else (pyFind c t).map (· + 1)

/-- Index of the last occurrence of the character `c`
(Python `str.rfind`, with `none` standing for `-1`). -/
def pyRFind (c : Char) (l : List Char) : Option Nat :=
  (pyFind c l.reverse).map (fun i => l.length - 1 - i)

/-- Index of the first occurrence of the pattern inside the haystack
(leftmost match of a literal pattern). -/
def findSub (pat : List Char) : List Char → Option Nat
  | [] => if pat.isEmpty then some 0 else none
  | a :: t => if pat.isPrefixOf (a :: t) then some 0 else (findSub pat t).map (· + 1)

/-- Python substring containment (`pat in hay`). -/
def hasSub (hay pat : List Char) : Bool := (findSub pat hay).isSome

/-- The characters of the opening fence tag "```json". -/
def fenceTag : List Char := [btick, btick, btick, 'j', 's', 'o', 'n']

/-- The characters of the fence delimiter "```". -/
def fenceEnd : List Char := [btick, btick, btick]

/-- Interior of the first complete fenced block, following the semantics
of `re.search(r"```json\s*(.*?)\s*```", text, re.DOTALL)` in
`extract_json` (src/app.py line 51): the match starts at the leftmost
occurrence of the opening tag that is followed by a later closing
delimiter, and the lazily captured group runs up to the first such
delimiter (the caller strips surrounding whitespace, which subsumes the
`\s*` trims around the group). -/
def fenceInterior : List Char → Option (List Char)
  | [] => none
  | a :: t =>
    if fenceTag.isPrefixOf (a :: t) then
      match findSub fenceEnd ((a :: t).drop fenceTag.length) with
      | some j => some (((a :: t).drop fenceTag.length).take j)
      | none => fenceInterior t
    else fenceInterior t

/-- Candidate selection of `extract_json` (src/app.py lines 50-60):
strip the text, prefer the interior of the first complete fenced block
(stripped), otherwise the span from the first `{` to the last `}` when
the latter is strictly later, otherwise the whole stripped text. -/
def jsonCandidate (raw : List Char) : List Char :=
  let t := pyStripList raw
  match fenceInterior t with
  | some interior => pyStripList interior
  | none =>
    match pyFind '{' t, pyRFind '}' t with
    | some s, some e => if s < e then (t.drop s).take (e + 1 - s) else t
    | _, _ => t

/-- Left-to-right, non-overlapping application of
`re.sub(r',\s*([}\]])', r'\1', s)` (src/app.py line 61): a comma, plus
the whitespace after it, directly before `}` or `]` is dropped. The fuel
is the input length; every emitted character consumes at least one input
character, so the fuel never runs out on the initial call. -/
def stripCommasGo : Nat → List Char → List Char
  | 0, l => l
  | _ + 1, [] => []
  | fuel + 1, c :: t =>
    if c = ',' then
      match t.dropWhile isPySpace with
      | b :: rest =>
        if b = '}' || b = ']' then b :: stripCommasGo fuel rest
        else c :: stripCommasGo fuel t
      | [] => c :: stripCommasGo fuel t
    else c :: stripCommasGo fuel t

/-- The trailing-comma repair pass of `extract_json` (src/app.py line 61). -/
def stripTrailingCommas (l : List Char) : List Char := stripCommasGo l.length l

/-- JSON values as produced by Python `json.loads`. Objects keep Python
dict semantics for duplicate keys (a later value overwrites in place, a
fresh key is appended); non-integral numbers and the NaN/Infinity
constants are kept as their lexeme, since nothing in the source inspects
them numerically. -/
inductive JsonVal where
  | null
  | bool (b : Bool)
  | num (n : Int)
  | flt (lexeme : String)
  | str (s : String)
  | arr (elems : List JsonVal)
  | obj (fields : List (String × JsonVal))
deriving Repr

/-- Python dict assignment on an insertion-ordered association list:
overwrite in place when the key exists, append otherwise. -/
def dictAssign {β : Type} (d : List (String × β)) (k : String) (v : β) :
    List (String × β) :=
  if (d.map Prod.fst).contains k then
    d.map (fun p => if p.1 = k then (k, v) else p)
  else d ++ [(k, v)]

/-- Value of a hexadecimal digit. -/
def hexVal (c : Char) : Option Nat :=
  if '0' ≤ c ∧ c ≤ '9' then some (c.toNat - '0'.toNat)
  else if 'a' ≤ c ∧ c ≤ 'f' then some (c.toNat - 'a'.toNat + 10)
  else if 'A' ≤ c ∧ c ≤ 'F' then some (c.toNat - 'A'.toNat + 10)
  else none

/-- Numeric value of a list of decimal digits. -/
def digitsToNat (l : List Char) : Nat :=
  l.foldl (fun n c => 10 * n + (c.toNat - '0'.toNat)) 0

/-- Decimal digit test. -/
def isDigit (c : Char) : Bool := '0' ≤ c && c ≤ '9'

/-- Parse a JSON number at the head of the input, following the regex
`(-?(?:0|[1-9]\d*))(\.\d+)?([eE][-+]?\d+)?` used by Python's decoder:
the integer part is `0` or has no leading zero, a fraction or exponent
is only consumed when complete. Integral numbers become `JsonVal.num`,
anything with a fraction or exponent keeps its lexeme. -/
def parseNumber (l : List Char) : Option (JsonVal × List Char) :=
  let (neg, l1) := match l with
    | '-' :: t => (true, t)
    | _ => (false, l)
  let (intPart, l2) : List Char × List Char := match l1 with
    | '0' :: t => (['0'], t)
    | c :: t => if isDigit c && c ≠ '0' then
        (c :: t.takeWhile isDigit, t.dropWhile isDigit) else ([], l1)
    | [] => ([], l1)
  if intPart.isEmpty then none
  else
    let (fracPart, l3) : List Char × List Char := match l2 with
      | '.' :: t =>
        if (t.takeWhile isDigit).isEmpty then ([], l2)
        else ('.' :: t.takeWhile isDigit, t.dropWhile isDigit)
      | _ => ([], l2)
    let (expPart, l4) : List Char × List Char := match l3 with
      | e :: t =>
        if e = 'e' || e = 'E' then
          let (sgn, t2) : List Char × List Char := match t with
            | s :: t2 => if s = '+' || s = '-' then ([s], t2) else ([], t)
            | [] => ([], t)
          if (t2.takeWhile isDigit).isEmpty then ([], l3)
          else (e :: (sgn ++ t2.takeWhile isDigit), t2.dropWhile isDigit)
        else ([], l3)
      | [] => ([], l3)
    if fracPart.isEmpty && expPart.isEmpty then
      let n : Int := Int.ofNat (digitsToNat intPart)
      some (JsonVal.num (if neg then -n else n), l2)
    else
      let lex : List Char := (if neg then ['-'] else []) ++ intPart ++ fracPart ++ expPart
      some (JsonVal.flt ⟨lex⟩, l4)

/-- Skip JSON whitespace. -/
def skipWs (l : List Char) : List Char := l.dropWhile isJsonSpace

mutual

/-- Parse one JSON value at the head of the input (no leading
whitespace), mirroring Python's strict decoder: objects, arrays,
double-quoted strings, numbers, `true`/`false`/`null` and the
`NaN`/`Infinity`/`-Infinity` constants Python accepts by default. -/
def parseValue : Nat → List Char → Option (JsonVal × List Char)
  | 0, _ => none
  | fuel + 1, l =>
    match l with
    | [] => none
    | c :: t =>
      if c = '{' then
        match skipWs t with
        | '}' :: r => some (JsonVal.obj [], r)
        | r => parseMembers fuel [] r
      else if c = '[' then
        match skipWs t with
        | ']' :: r => some (JsonVal.arr [], r)
        | r => parseElems fuel [] r
      else if c = '"' then
        match parseStrGo fuel [] t with
        | some (s, r) => some (JsonVal.str s, r)
        | none => none
      else if ['t', 'r', 'u', 'e'].isPrefixOf l then some (JsonVal.bool true, l.drop 4)
      else if ['f', 'a', 'l', 's', 'e'].isPrefixOf l then some (JsonVal.bool false, l.drop 5)
      else if ['n', 'u', 'l', 'l'].isPrefixOf l then some (JsonVal.null, l.drop 4)
      else if ['N', 'a', 'N'].isPrefixOf l then some (JsonVal.flt "NaN", l.drop 3)
      else if ['I', 'n', 'f', 'i', 'n', 'i', 't', 'y'].isPrefixOf l then
        some (JsonVal.flt "Infinity", l.drop 8)
      else if ['-', 'I', 'n', 'f', 'i', 'n', 'i', 't', 'y'].isPrefixOf l then
        some (JsonVal.flt "-Infinity", l.drop 9)
      else parseNumber l

/-- Parse the members of an object after its `{` (first key expected at
the head, whitespace already skipped); a comma must be followed by
another key, so a trailing comma fails exactly as in Python. -/
def parseMembers : Nat → List (String × JsonVal) → List Char →
    Option (JsonVal × List Char)
  | 0, _, _ => none
  | fuel + 1, acc, l =>
    match l with
    | '"' :: t =>
      match parseStrGo fuel [] t with
      | some (k, r1) =>
        match skipWs r1 with
        | ':' :: r2 =>
          match parseValue fuel (skipWs r2) with
          | some (v, r3) =>
            match skipWs r3 with
            | ',' :: r4 => parseMembers fuel (dictAssign acc k v) (skipWs r4)
            | '}' :: r4 => some (JsonVal.obj (dictAssign acc k v), r4)
            | _ => none
          | none => none
        | _ => none
      | none => none
    | _ => none

/-- Parse the elements of an array after its `[` (first element expected
at the head, whitespace already skipped). -/
def parseElems : Nat → List JsonVal → List Char → Option (JsonVal × List Char)
  | 0, _, _ => none
  | fuel + 1, acc, l =>
    match parseValue fuel l with
    | some (v, r1) =>
      match skipWs r1 with
      | ',' :: r2 => parseElems fuel (v :: acc) (skipWs r2)
      | ']' :: r2 => some (JsonVal.arr (v :: acc).reverse, r2)
      | _ => none
    | none => none

/-- Parse the body of a JSON string after the opening quote, with
Python's strict rules: raw control characters fail, only the nine JSON
escapes are accepted, `\uXXXX` escapes combine surrogate pairs. (A lone
surrogate, which Python keeps as an unpaired code unit, is not
representable in a Lean `Char`; no claim depends on that corner.) -/
def parseStrGo : Nat → List Char → List Char → Option (String × List Char)
  | 0, _, _ => none
  | fuel + 1, acc, l =>
    match l with
    | [] => none
    | c :: t =>
      if c = '"' then some (⟨acc.reverse⟩, t)
      else if c = '\\' then
        match t with
        | [] => none
        | e :: t2 =>
          if e = '"' then parseStrGo fuel ('"' :: acc) t2
          else if e = '\\' then parseStrGo fuel ('\\' :: acc) t2
          else if e = '/' then parseStrGo fuel ('/' :: acc) t2
          else if e = 'b' then parseStrGo fuel ('\x08' :: acc) t2
          else if e = 'f' then parseStrGo fuel ('\x0c' :: acc) t2
          else if e = 'n' then parseStrGo fuel ('\n' :: acc) t2
          else if e = 'r' then parseStrGo fuel ('\r' :: acc) t2
          else if e = 't' then parseStrGo fuel ('\t' :: acc) t2
          else if e = 'u' then
            match t2 with
            | h1 :: h2 :: h3 :: h4 :: t3 =>
              match hexVal h1, hexVal h2, hexVal h3, hexVal h4 with
              | some a, some b, some cc, some d =>
                let n := ((a * 16 + b) * 16 + cc) * 16 + d
                if 0xD800 ≤ n ∧ n ≤ 0xDBFF then
                  match t3 with
                  | '\\' :: 'u' :: k1 :: k2 :: k3 :: k4 :: t4 =>
                    match hexVal k1, hexVal k2, hexVal k3, hexVal k4 with
                    | some a2, some b2, some c2, some d2 =>
                      let m := ((a2 * 16 + b2) * 16 + c2) * 16 + d2
                      if 0xDC00 ≤ m ∧ m ≤ 0xDFFF then
                        parseStrGo fuel
                          (Char.ofNat (0x10000 + (n - 0xD800) * 0x400 + (m - 0xDC00)) :: acc) t4
                      else parseStrGo fuel (Char.ofNat n :: acc) t3
                    | _, _, _, _ => parseStrGo fuel (Char.ofNat n :: acc) t3
                  | _ => parseStrGo fuel (Char.ofNat n :: acc) t3
                else parseStrGo fuel (Char.ofNat n :: acc) t3
              | _, _, _, _ => none
            | _ => none
          else none
      else if c.toNat < 0x20 then none
      else parseStrGo fuel (c :: acc) t

end

/-- Python `json.loads`: skip leading whitespace, parse one value, and
require only whitespace to remain ("Extra data" otherwise). `none`
models a raised `json.JSONDecodeError`. The fuel bound exceeds the
length of any chain of recursive calls the input can produce. -/
def jsonParse (l : List Char) : Option JsonVal :=
  match parseValue (4 * l.length + 16) (skipWs l) with
  | some (v, rest) => if skipWs rest = [] then some v else none
  | none => none

/-- `extract_json` (src/app.py lines 41-70): empty input fails
immediately; otherwise the candidate substring is selected, repaired and
parsed, and any parse failure yields the empty record. The function is
total — the Python original catches `json.JSONDecodeError` and never
raises. -/
def extract_json (text : String) : JsonVal :=
  if text.data = [] then JsonVal.obj []
  else
    match jsonParse (stripTrailingCommas (jsonCandidate text.data)) with
    | some v => v
    | none => JsonVal.obj []

/-- Python truthiness of an optional string (`None` and `""` are falsy),
used for `char.get('name')` and `context.get("primary_indian_city")`. -/
def pyTruthyOpt : Option String → Bool
  | none => false
  | some s => s ≠ ""

/-- A character record as read by the pipeline: the dictionary fields of
an analysis character that the source ever accesses (`name`, `role`,
`species`, `gender`; the remaining keys are only echoed into prompts).
`none` models an absent key. -/
structure CharRec where
  name : Option String
  role : Option String
  species : Option String
  gender : Option String
deriving Repr, DecidableEq

/-- An element of an analysis `characters` list: a dictionary, or a
non-dictionary value, which every `isinstance(char, dict)` guard in the
source skips. -/
inductive CharEntry where
  | obj (c : CharRec)
  | nonObj
deriving Repr, DecidableEq

/-- The fields of a chapter analysis that `run_pipeline` reads:
`characters`, `locations` and `chapter_summary` (the latter is only
echoed into the summary-merge prompt). An analysis that is an empty or
character-less record is modelled by an empty `characters` list — in
Python, a dict whose `characters` entry is a non-empty list is itself
truthy, so the validity test `analysis_data and
analysis_data.get("characters")` reduces to the characters test. -/
structure ChapterAnalysis where
  characters : List CharEntry
  locations : List String
  chapter_summary : String
deriving Repr, DecidableEq

/-- One entry of the naming worker's `name_suggestions` list, as read by
the pipeline: `original_name` and the suggested `indian_names` (the
`role`/`gender` fields are only printed). -/
structure NameSuggestion where
  original_name : String
  indian_names : List String
deriving Repr, DecidableEq

/-- The persisted per-story record (src/app.py lines 82-89). Mappings
are insertion-ordered association lists with Python dict semantics. -/
structure StoryContext where
  chapter_count : Int
  name_mapping : List (String × String)
  primary_indian_city : Option String
  city_mapping : List (String × String)
  cumulative_summary : String
  all_characters : List CharRec
deriving Repr, DecidableEq

/-- The fresh context created by `load_context` when no file exists
(src/app.py lines 82-89). -/
def initContext : StoryContext :=
  { chapter_count := 0
    name_mapping := []
    primary_indian_city := none
    city_mapping := []
    cumulative_summary := "This is the beginning of the story."
    all_characters := [] }

/-- The curated list of twenty ancient Indian cities
(src/app.py lines 17-38). -/
def ANCIENT_INDIAN_CITIES : List String :=
  ["पाटलिपुत्र", "अयोध्या", "हस्तिनापुर", "इंद्रप्रस्थ", "उज्जैन",
   "काशी", "मथुरा", "द्वारका", "कुरुक्षेत्र", "तक्षशिला",
   "कान्यकुब्ज", "वैशाली", "राजगृह", "श्रावस्ती", "कपिलवस्तु",
   "गांधार", "मगध", "कोसल", "अवंती", "चेदि"]

/-- The outputs one `run_pipeline` call obtains from the generator and
the user, all of which the claims quantify over. Generator responses are
modelled after extraction into the fields the code reads. `analysis1` is
the extraction of the first analysis attempt; `analysis2` is the
extraction of the retry, whose prompt is the fix-this-JSON variant
embedding the first attempt's raw output (pure string plumbing with no
effect on state). The user's selection loops re-prompt until a valid
choice, so each recorded choice is interpreted by `chooseName` /
indexing into the city list. -/
structure PipelineOracle where
  analysis1 : ChapterAnalysis
  analysis2 : ChapterAnalysis
  name_suggestions : List NameSuggestion
  name_choices : List Nat
  city_choice : Fin ANCIENT_INDIAN_CITIES.length
  adapter_output : String
  summary_output : String
deriving Repr, DecidableEq

/-- The loop body of `filter_new_human_characters` (src/app.py lines
303-305): a dictionary entry is kept when its species is
case-insensitively "human" and its name is not among the existing
names. -/
def humanFilterStep (existing_names : List (Option String)) : CharEntry → Option CharRec
  | .obj c =>
    if pyToLower (c.species.getD "") = "human" && !(existing_names.contains c.name)
    then some c else none
  | .nonObj => none

/-- `filter_new_human_characters` (src/app.py lines 299-306): dictionary
entries whose species is case-insensitively "human" and whose name is
not among the names of the existing roster. -/
def filter_new_human_characters (new_chars : List CharEntry)
    (existing_chars : List CharRec) : List CharRec :=
  new_chars.filterMap (humanFilterStep (existing_chars.map (·.name)))

/-- `filter_new_locations` (src/app.py lines 309-311): truthy locations
that are not yet keys of the existing mapping. -/
def filter_new_locations (new_locations : List String)
    (existing_mapping : List (String × String)) : List String :=
  new_locations.filter fun loc =>
    loc ≠ "" && !((existing_mapping.map Prod.fst).contains loc)

/-- The user's selection for one naming prompt (src/app.py lines
385-395): choices `1..len` pick a suggested name, `len+1` keeps the
original, and anything else re-prompts — every terminating interaction
therefore realises one of these outcomes, and an out-of-range recorded
choice is interpreted as the keep-original outcome (which choice
`len+1` also produces). -/
def chooseName (indian_names : List String) (orig : String) (choice : Nat) : String :=
  if 1 ≤ choice ∧ choice ≤ indian_names.length then
    indian_names.getD (choice - 1) orig
  else orig

/-- The naming loop over `name_data["name_suggestions"]` (src/app.py
lines 377-396): each suggestion writes the chosen mapping for its
`original_name`; a missing recorded choice realises the keep-original
outcome. -/
def applyNameChoices (nm : List (String × String)) :
    List NameSuggestion → List Nat → List (String × String)
  | [], _ => nm
  | s :: ss, [] =>
    applyNameChoices (dictAssign nm s.original_name s.original_name) ss []
  | s :: ss, c :: cs =>
    applyNameChoices
      (dictAssign nm s.original_name (chooseName s.indian_names s.original_name c)) ss cs

/-- The validity test on an extracted analysis (src/app.py lines 356,
359): `analysis_data and analysis_data.get("characters")`. -/
def analysisValid (a : ChapterAnalysis) : Bool := !a.characters.isEmpty

/-- The analysis the retry loop ends with (src/app.py lines 340-358):
the first attempt when valid, otherwise the second attempt. -/
def effectiveAnalysis (o : PipelineOracle) : ChapterAnalysis :=
  if analysisValid o.analysis1 then o.analysis1 else o.analysis2

/-- The failure sentinel returned on analysis failure
(src/app.py line 362). -/
def failMsg : String := "Chapter processing failed due to analysis error."

/-- Stage 2 of `run_pipeline` (src/app.py lines 366-396): when the
chapter introduces new human characters, the naming worker is invoked on
exactly those characters and the user's choices are folded into
`name_mapping`; otherwise the stage is skipped (and when the extracted
suggestion list is empty the loop body never runs, which
`applyNameChoices` reproduces). -/
def stageNames (c : StoryContext) (analysis : ChapterAnalysis)
    (o : PipelineOracle) : StoryContext :=
  if (filter_new_human_characters analysis.characters c.all_characters).isEmpty then c
  else { c with name_mapping := applyNameChoices c.name_mapping o.name_suggestions o.name_choices }

/-- Step 1 of stage 3 (src/app.py lines 402-425): when no truthy primary
city exists and the chapter mentions locations, the user picks one from
the curated list and it is persisted as `primary_indian_city`. -/
def stageCityChoose (c : StoryContext) (analysis : ChapterAnalysis)
    (o : PipelineOracle) : StoryContext :=
  if !(pyTruthyOpt c.primary_indian_city) && !analysis.locations.isEmpty then
    { c with primary_indian_city := some (ANCIENT_INDIAN_CITIES.get o.city_choice) }
  else c

/-- Step 2 of stage 3 (src/app.py lines 427-437): when a truthy primary
city exists, every new location is mapped to it. -/
def stageCityMap (c : StoryContext) (analysis : ChapterAnalysis) : StoryContext :=
  match c.primary_indian_city with
  | some city =>
    if city ≠ "" then
      let cm := (filter_new_locations analysis.locations c.city_mapping).foldl
        (fun m loc => dictAssign m loc city) c.city_mapping
      { c with city_mapping := cm }
    else c
  | none => c

/-- Stage 3 of `run_pipeline` (src/app.py lines 398-437). -/
def stageCity (c : StoryContext) (analysis : ChapterAnalysis)
    (o : PipelineOracle) : StoryContext :=
  stageCityMap (stageCityChoose c analysis o) analysis

/-- The loop body of the roster merge (src/app.py lines 441-443): a
dictionary entry is appended when its name is truthy and not among the
pre-merge roster names. -/
def rosterStep (existing_names : List (Option String)) : CharEntry → Option CharRec
  | .obj ch =>
    if pyTruthyOpt ch.name && !(existing_names.contains ch.name) then some ch else none
  | .nonObj => none

/-- The records the roster merge appends (src/app.py lines 440-443):
dictionary entries with a truthy name not among the roster names — the
name set is computed once, before the loop, so two occurrences of the
same new name in one chapter are both appended. -/
def rosterAdditions (chars : List CharEntry) (existing : List CharRec) : List CharRec :=
  chars.filterMap (rosterStep (existing.map (·.name)))

/-- Stage 4 of `run_pipeline` (src/app.py lines 439-443): merge the
chapter's characters into the roster. -/
def stageRoster (c : StoryContext) (analysis : ChapterAnalysis) : StoryContext :=
  { c with all_characters := c.all_characters ++ rosterAdditions analysis.characters c.all_characters }

/-- Stage 6 of `run_pipeline` (src/app.py lines 460-470): a truthy
summary-merge response replaces `cumulative_summary` by its stripped
value; an empty response (including a failed generator call, which the
worker turns into `""`) leaves it unchanged. -/
def stageSummary (c : StoryContext) (o : PipelineOracle) : StoryContext :=
  if o.summary_output ≠ "" then { c with cumulative_summary := pyStrip o.summary_output } else c

/-- `run_pipeline` (src/app.py lines 333-472): increment
`chapter_count`; obtain a valid analysis in at most two attempts, or
roll the increment back and return the failure sentinel with the
otherwise untouched context; then run the naming, city, roster and
summary stages and return the adapter's output verbatim. -/
def run_pipeline (text : String) (context : StoryContext)
    (o : PipelineOracle) : String × StoryContext :=
  let c1 := { context with chapter_count := context.chapter_count + 1 }
  let analysis := effectiveAnalysis o
  if !(analysisValid analysis) then
    (failMsg, { c1 with chapter_count := c1.chapter_count - 1 })
  else
    (o.adapter_output,
      stageSummary (stageRoster (stageCity (stageNames c1 analysis o) analysis o) analysis) o)

/-- The transcript-append guard of `main` (src/app.py lines 563-564):
`updated_context.get("chapter_count", 0) > 0 and "failed" not in
hindi_chapter`. -/
def main_append_condition (ctx : StoryContext) (hindi : String) : Bool :=
  decide (ctx.chapter_count > 0) && !(hasSub hindi.data "failed".data)

/-- The durable state of one story: the persisted context and the number
of chapter blocks `append_to_full_story` has written to its transcript
file. -/
structure MainState where
  ctx : StoryContext
  transcript_blocks : Nat
deriving Repr, DecidableEq

/-- One run of `main`'s processing body (src/app.py lines 548-565): an
all-whitespace chapter raises before the pipeline and changes nothing;
otherwise the pipeline runs, the returned context is saved, and the
chapter is appended to the transcript exactly when the guard holds. -/
def main_step (text : String) (o : PipelineOracle) (s : MainState) : MainState :=
  if pyStrip text = "" then s
  else
    let r := run_pipeline text s.ctx o
    { ctx := r.2
      transcript_blocks :=
        s.transcript_blocks + (if main_append_condition r.2 r.1 then 1 else 0) }

/-- Contexts reachable from the fresh context by pipeline runs whose
oracle satisfies `P` in the pre-state. -/
inductive ReachableVia (P : StoryContext → PipelineOracle → Prop) : StoryContext → Prop where
  | init : ReachableVia P initContext
  | step (text : String) (o : PipelineOracle) (ctx : StoryContext) :
      ReachableVia P ctx → P ctx o → ReachableVia P (run_pipeline text ctx o).2

/-- Contexts reachable from the fresh context by arbitrary pipeline
runs. -/
def Reachable (ctx : StoryContext) : Prop := ReachableVia (fun _ _ => True) ctx

/-- An oracle whose two analysis attempts are both invalid. -/
def oracleBothInvalid : PipelineOracle :=
  { analysis1 := { characters := [], locations := [], chapter_summary := "" }
    analysis2 := { characters := [], locations := [], chapter_summary := "" }
    name_suggestions := []
    name_choices := []
    city_choice := ⟨0, by decide⟩
    adapter_output := ""
    summary_output := "" }

/-- An oracle for a plain successful chapter with a non-empty
summary-merge response. -/
def oracleSummary : PipelineOracle :=
  { analysis1 :=
      { characters := [CharEntry.obj
          { name := some "Aiko", role := some "protagonist", species := some "human",
            gender := some "female" }]
        locations := []
        chapter_summary := "s" }
    analysis2 := { characters := [], locations := [], chapter_summary := "" }
    name_suggestions := []
    name_choices := []
    city_choice := ⟨0, by decide⟩
    adapter_output := "कथा का पाठ"
    summary_output := "  नया सार  " }

/-- An oracle for a successful chapter whose adapted text happens to
contain the substring "failed". -/
def oracleFailedText : PipelineOracle :=
  { analysis1 :=
      { characters := [CharEntry.obj
          { name := some "Haru", role := some "protagonist", species := some "human",
            gender := some "male" }]
        locations := []
        chapter_summary := "s" }
    analysis2 := { characters := [], locations := [], chapter_summary := "" }
    name_suggestions := []
    name_choices := []
    city_choice := ⟨0, by decide⟩
    adapter_output := "योजना failed रही, पर आशा बची थी।"
    summary_output := "" }

/-- An oracle whose single chapter analysis lists the same new character
name twice. -/
def oracleDupChar : PipelineOracle :=
  { analysis1 :=
      { characters :=
          [CharEntry.obj
            { name := some "Yuki", role := some "protagonist", species := some "human",
              gender := some "female" },
           CharEntry.obj
            { name := some "Yuki", role := some "ally", species := some "human",
              gender := some "female" }]
        locations := []
        chapter_summary := "s" }
    analysis2 := { characters := [], locations := [], chapter_summary := "" }
    name_suggestions := []
    name_choices := []
    city_choice := ⟨0, by decide⟩
    adapter_output := "कहानी"
    summary_output := "" }

/-- An oracle that pairs a new human character with a naming response
whose suggestion names the chapter's non-human character. -/
def oracleC7 : PipelineOracle :=
  { analysis1 :=
      { characters :=
          [CharEntry.obj
            { name := some "Akira", role := some "protagonist", species := some "human",
              gender := some "male" },
           CharEntry.obj
            { name := some "Rex", role := some "pet", species := some "animal",
              gender := some "male" }]
        locations := []
        chapter_summary := "s" }
    analysis2 := { characters := [], locations := [], chapter_summary := "" }
    name_suggestions := [{ original_name := "Rex", indian_names := ["Ravi Kumar"] }]
    name_choices := [1]
    city_choice := ⟨0, by decide⟩
    adapter_output := "कहानी"
    summary_output := "" }

/-- An honest variant of the C7 oracle: the suggestion names the new
human character. -/
def oracleC7w : PipelineOracle :=
  { oracleC7 with
    name_suggestions := [{ original_name := "Akira", indian_names := ["Arjun Verma"] }] }

/-- An oracle whose naming response invents an `original_name` that is
not the name of any character in the chapter. -/
def oracleC8 : PipelineOracle :=
  { analysis1 :=
      { characters := [CharEntry.obj
          { name := some "Asuka", role := some "protagonist", species := some "human",
            gender := some "female" }]
        locations := []
        chapter_summary := "s" }
    analysis2 := { characters := [], locations := [], chapter_summary := "" }
    name_suggestions := [{ original_name := "Bogus", indian_names := ["Vikram Singh"] }]
    name_choices := [1]
    city_choice := ⟨0, by decide⟩
    adapter_output := "कहानी"
    summary_output := "" }

/-- A naming response is honest for a pre-state when every suggestion's
`original_name` is the non-empty name of one of the new human characters
the naming step was invoked on. -/
def honestNaming (ctx : StoryContext) (o : PipelineOracle) : Prop :=
  ∀ s ∈ o.name_suggestions, s.original_name ≠ "" ∧
    ∃ c ∈ filter_new_human_characters (effectiveAnalysis o).characters ctx.all_characters,
      c.name = some s.original_name

/-- An honest variant of the C8 oracle. -/
def oracleC8w : PipelineOracle :=
  { oracleC8 with
    name_suggestions := [{ original_name := "Asuka", indian_names := ["Meera Nair"] }] }

/-- The record of the character "Asuka" in the C8 oracles. -/
def asukaRec : CharRec :=
  { name := some "Asuka", role := some "protagonist", species := some "human",
    gender := some "female" }

/-- The auxiliary city invariant: the primary city is unset or one of
the twenty curated cities, and every stored `city_mapping` value equals
the primary city. -/
def CityInv (ctx : StoryContext) : Prop :=
  (ctx.primary_indian_city = none ∨
    ∃ c, ctx.primary_indian_city = some c ∧ c ∈ ANCIENT_INDIAN_CITIES) ∧
  (∀ p ∈ ctx.city_mapping, ctx.primary_indian_city = some p.2)

/-- An oracle whose chapter mentions the empty-string location alongside
"Tokyo". -/
def oracleC1 : PipelineOracle :=
  { analysis1 :=
      { characters := [CharEntry.obj
          { name := some "Mio", role := some "protagonist", species := some "human",
            gender := some "female" }]
        locations := ["", "Tokyo"]
        chapter_summary := "s" }
    analysis2 := { characters := [], locations := [], chapter_summary := "" }
    name_suggestions := []
    name_choices := []
    city_choice := ⟨0, by decide⟩
    adapter_output := "कहानी"
    summary_output := "" }

/-! ### Helper lemmas and claim theorems -/

theorem dropWhile_append_fix {α : Type} (p : α → Bool) (a b : List α)
    (hb : b.dropWhile p = b) : (a ++ b).dropWhile p = a.dropWhile p ++ b := by
  induction a with
  | nil => simpa using hb
  | cons x xs ih =>
    by_cases h : p x
    · simp [List.dropWhile_cons, h, ih]
    · simp [List.dropWhile_cons, h]

theorem dropWhile_fix_of_head {α : Type} (p : α → Bool) (c : α) (t : List α)
    (h : p c = false) : (c :: t).dropWhile p = c :: t := by
  simp [List.dropWhile_cons, h]

theorem head_false_of_dropWhile_fix {α : Type} (p : α → Bool) (c : α) (t : List α)
    (h : (c :: t).dropWhile p = c :: t) : p c = false := by
  by_contra hc
  rw [List.dropWhile_cons_of_pos (by simpa using hc)] at h
  have hlen := (List.dropWhile_sublist (l := t) p).length_le
  rw [h] at hlen
  simp at hlen

theorem take_append_len {α : Type} (m x : List α) (i : Nat) :
    (m ++ x).take (m.length + i) = m ++ x.take i := by
  induction m with
  | nil => simp
  | cons a t ih => simp [List.take_succ_cons, Nat.succ_add, ih]

theorem pyStripList_sandwich (a m b : List Char) (hm : m ≠ [])
    (h1 : m.dropWhile isPySpace = m) (h2 : m.reverse.dropWhile isPySpace = m.reverse) :
    pyStripList (a ++ (m ++ b)) =
      a.dropWhile isPySpace ++ (m ++ (b.reverse.dropWhile isPySpace).reverse) := by
  obtain ⟨c, t, rfl⟩ : ∃ c t, m = c :: t := by
    cases m with
    | nil => exact absurd rfl hm
    | cons c t => exact ⟨c, t, rfl⟩
  have hc : isPySpace c = false := head_false_of_dropWhile_fix _ _ _ h1
  have hmb : ((c :: t) ++ b).dropWhile isPySpace = (c :: t) ++ b :=
    dropWhile_fix_of_head _ _ _ hc
  unfold pyStripList
  rw [dropWhile_append_fix _ _ _ hmb]
  obtain ⟨d, r, hdr⟩ : ∃ d r, (c :: t).reverse = d :: r := by
    cases he : (c :: t).reverse with
    | nil => exact absurd (congrArg List.length he) (by simp)
    | cons d r => exact ⟨d, r, rfl⟩
  have hd : isPySpace d = false := head_false_of_dropWhile_fix _ _ _ (hdr ▸ h2)
  have hrev : (a.dropWhile isPySpace ++ ((c :: t) ++ b)).reverse
      = b.reverse ++ (d :: (r ++ (a.dropWhile isPySpace).reverse)) := by
    rw [List.reverse_append, List.reverse_append, hdr]
    simp [List.append_assoc]
  rw [hrev, dropWhile_append_fix _ _ _ (dropWhile_fix_of_head _ _ _ hd)]
  have hback : (d :: (r ++ (a.dropWhile isPySpace).reverse))
      = (c :: t).reverse ++ (a.dropWhile isPySpace).reverse := by
    rw [hdr]; rfl
  rw [hback]
  simp [List.reverse_append, List.reverse_reverse, List.append_assoc]

theorem hasSub_iff (l pat : List Char) : hasSub l pat = true ↔ ∃ u v, l = u ++ (pat ++ v) := by
  induction l with
  | nil =>
    unfold hasSub findSub
    constructor
    · intro h
      have hp : pat = [] := by
        cases he : pat.isEmpty
        · rw [he] at h; simp at h
        · exact List.isEmpty_iff.mp he
      exact ⟨[], [], by simp [hp]⟩
    · rintro ⟨u, v, h⟩
      have hp : pat = [] := by
        have hl := congrArg List.length h
        simp at hl
        exact List.length_eq_zero.mp (by omega)
      simp [hp]
  | cons x xs ih =>
    unfold hasSub findSub
    cases hp : pat.isPrefixOf (x :: xs)
    · rw [if_neg (by simp)]
      have hmap : (Option.map (fun i => i + 1) (findSub pat xs)).isSome = hasSub xs pat := by
        unfold hasSub
        cases findSub pat xs <;> rfl
      rw [hmap, ih]
      constructor
      · rintro ⟨u, v, h⟩
        exact ⟨x :: u, v, by simp [h]⟩
      · rintro ⟨u, v, h⟩
        cases u with
        | nil =>
          exfalso
          have : pat.isPrefixOf (x :: xs) = true := by
            rw [List.isPrefixOf_iff_prefix]
            exact ⟨v, by simpa using h.symm⟩
          rw [hp] at this
          cases this
        | cons y u' =>
          have h' := h
          simp only [List.cons_append] at h'
          injection h' with h1 h2
          exact ⟨u', v, h2⟩
    · have hex : ∃ u v, x :: xs = u ++ (pat ++ v) := by
        obtain ⟨v, hv⟩ := List.isPrefixOf_iff_prefix.mp hp
        exact ⟨[], v, by simp [hv]⟩
      simp [hex]

theorem hasSub_false_of_part (l pat u v : List Char)
    (h : hasSub (u ++ (l ++ v)) pat = false) : hasSub l pat = false := by
  by_contra hc
  obtain ⟨a, b, hab⟩ := (hasSub_iff l pat).mp (by
    cases hx : hasSub l pat
    · exact absurd hx hc
    · rfl)
  have : hasSub (u ++ (l ++ v)) pat = true := by
    rw [hasSub_iff]
    exact ⟨u ++ a, b ++ v, by simp [hab, List.append_assoc]⟩
  rw [this] at h
  cases h

theorem pyStripList_infix (l : List Char) :
    ∃ u v, l = u ++ (pyStripList l ++ v) := by
  refine ⟨l.takeWhile isPySpace,
    ((l.dropWhile isPySpace).reverse.takeWhile isPySpace).reverse, ?_⟩
  unfold pyStripList
  conv_lhs => rw [← List.takeWhile_append_dropWhile (p := isPySpace) (l := l)]
  congr 1
  conv_lhs => rw [← List.reverse_reverse (l.dropWhile isPySpace)]
  conv_lhs =>
    rw [← List.takeWhile_append_dropWhile (p := isPySpace)
      (l := (l.dropWhile isPySpace).reverse)]
  rw [List.reverse_append]

theorem mem_of_mem_pyStripList (x : Char) (l : List Char)
    (h : x ∈ pyStripList l) : x ∈ l := by
  obtain ⟨u, v, he⟩ := pyStripList_infix l
  rw [he]
  simp [h]

theorem hasSub_strip_false (l pat : List Char) (h : hasSub l pat = false) :
    hasSub (pyStripList l) pat = false := by
  obtain ⟨u, v, he⟩ := pyStripList_infix l
  exact hasSub_false_of_part _ _ u v (he ▸ h)

theorem fenceInterior_none_of_no_tag (l : List Char) (h : hasSub l fenceTag = false) :
    fenceInterior l = none := by
  induction l with
  | nil => rfl
  | cons a t ih =>
    have hp : fenceTag.isPrefixOf (a :: t) = false := by
      cases hx : fenceTag.isPrefixOf (a :: t)
      · rfl
      · exfalso
        have hs : hasSub (a :: t) fenceTag = true := by
          unfold hasSub findSub
          rw [if_pos hx]
          rfl
        rw [hs] at h
        cases h
    have ht : hasSub t fenceTag = false := by
      unfold hasSub findSub at h
      rw [if_neg (by simp [hp])] at h
      unfold hasSub
      cases hfs : findSub fenceTag t
      · rfl
      · rw [hfs] at h
        simp at h
    unfold fenceInterior
    rw [if_neg (by simp [hp])]
    exact ih ht

theorem fenceInterior_skip (a rest : List Char) (h : btick ∉ a) :
    fenceInterior (a ++ (fenceTag ++ rest)) = fenceInterior (fenceTag ++ rest) := by
  induction a with
  | nil => rfl
  | cons x xs ih =>
    have hx : ¬ x = btick := by
      intro he
      exact h (by rw [he]; exact List.mem_cons_self _ _)
    have hpre : fenceTag.isPrefixOf (x :: (xs ++ (fenceTag ++ rest))) = false := by
      rw [show fenceTag = btick :: [btick, btick, 'j', 's', 'o', 'n'] from rfl,
        List.isPrefixOf_cons₂]
      have : (btick == x) = false := by
        simp
        intro he
        exact hx he.symm
      rw [this]
      rfl
    simp only [List.cons_append]
    unfold fenceInterior
    rw [if_neg (by simp [hpre])]
    exact ih (fun hm => h (List.mem_cons_of_mem _ hm))

theorem findSub_fenceEnd_at (a b : List Char) (h : btick ∉ a) :
    findSub fenceEnd (a ++ (fenceEnd ++ b)) = some a.length := by
  induction a with
  | nil =>
    rw [show ([] : List Char) ++ (fenceEnd ++ b)
      = btick :: ([btick, btick] ++ b) from rfl]
    unfold findSub
    rw [if_pos (by
      rw [show btick :: ([btick, btick] ++ b) = fenceEnd ++ b from rfl,
        List.isPrefixOf_iff_prefix]
      exact List.prefix_append _ _)]
    rfl
  | cons x xs ih =>
    have hx : ¬ x = btick := by
      intro he
      exact h (by rw [he]; exact List.mem_cons_self _ _)
    have hpre : fenceEnd.isPrefixOf (x :: (xs ++ (fenceEnd ++ b))) = false := by
      rw [show fenceEnd = btick :: [btick, btick] from rfl, List.isPrefixOf_cons₂]
      have hbx : (btick == x) = false := by
        simp
        intro he
        exact hx he.symm
      rw [hbx]
      rfl
    simp only [List.cons_append]
    unfold findSub
    rw [if_neg (by simp [hpre]), ih (fun hm => h (List.mem_cons_of_mem _ hm))]
    simp

theorem fenceInterior_at_tag (j rest : List Char) (hj : btick ∉ j) :
    fenceInterior (fenceTag ++ (j ++ (fenceEnd ++ rest))) = some j := by
  rw [show fenceTag ++ (j ++ (fenceEnd ++ rest))
    = btick :: ([btick, btick, 'j', 's', 'o', 'n'] ++ (j ++ (fenceEnd ++ rest))) from rfl]
  unfold fenceInterior
  rw [if_pos (by
    rw [show btick :: ([btick, btick, 'j', 's', 'o', 'n'] ++ (j ++ (fenceEnd ++ rest)))
      = fenceTag ++ (j ++ (fenceEnd ++ rest)) from rfl, List.isPrefixOf_iff_prefix]
    exact List.prefix_append _ _)]
  have hdrop : (btick :: ([btick, btick, 'j', 's', 'o', 'n']
      ++ (j ++ (fenceEnd ++ rest)))).drop fenceTag.length = j ++ (fenceEnd ++ rest) := rfl
  rw [hdrop, findSub_fenceEnd_at j rest hj]
  show some ((j ++ (fenceEnd ++ rest)).take j.length) = some j
  rw [List.take_left]

theorem pyFind_eq_none_iff (c : Char) (l : List Char) : pyFind c l = none ↔ c ∉ l := by
  induction l with
  | nil => simp [pyFind]
  | cons x xs ih =>
    unfold pyFind
    by_cases hx : x = c
    · simp [hx]
    · simp only [if_neg hx, Option.map_eq_none', ih, List.mem_cons]
      constructor
      · intro hn hor
        cases hor with
        | inl he => exact hx he.symm
        | inr hm => exact hn hm
      · intro hn hm
        exact hn (Or.inr hm)

theorem pyFind_append_cons (c : Char) (a r : List Char) (h : c ∉ a) :
    pyFind c (a ++ (c :: r)) = some a.length := by
  induction a with
  | nil => simp [pyFind]
  | cons x xs ih =>
    have hx : ¬ x = c := by
      intro he
      exact h (by rw [he]; exact List.mem_cons_self _ _)
    simp only [List.cons_append]
    unfold pyFind
    rw [if_neg hx, ih (fun hm => h (List.mem_cons_of_mem _ hm))]
    simp

theorem pyFind_cons (c x : Char) (t : List Char) :
    pyFind c (x :: t) = if x = c then some 0 else (pyFind c t).map (· + 1) := rfl

theorem pyFind_append_of_notin (c : Char) (a r : List Char) (h : c ∉ a) :
    pyFind c (a ++ r) = (pyFind c r).map (· + a.length) := by
  induction a with
  | nil =>
    simp only [List.nil_append, List.length_nil]
    cases pyFind c r <;> simp
  | cons x xs ih =>
    have hx : ¬ x = c := by
      intro he
      exact h (by rw [he]; exact List.mem_cons_self _ _)
    simp only [List.cons_append]
    rw [pyFind_cons, if_neg hx, ih (fun hm => h (List.mem_cons_of_mem _ hm))]
    cases pyFind c r with
    | none => simp
    | some i =>
      simp only [Option.map_some', Option.some.injEq, List.length_cons]
      omega

theorem pyRFind_append_cons (c : Char) (a b : List Char) (h : c ∉ b) :
    pyRFind c (a ++ (c :: b)) = some a.length := by
  unfold pyRFind
  have hrev : (a ++ (c :: b)).reverse = b.reverse ++ (c :: a.reverse) := by
    simp [List.reverse_append, List.append_assoc]
  rw [hrev, pyFind_append_cons c b.reverse a.reverse (by simpa using h)]
  have hlen : (a ++ (c :: b)).length = a.length + b.length + 1 := by
    simp [List.length_append]
    omega
  simp only [Option.map_some', Option.some.injEq, hlen, List.length_reverse]
  omega

theorem pyRFind_eq_none_iff (c : Char) (l : List Char) : pyRFind c l = none ↔ c ∉ l := by
  unfold pyRFind
  rw [Option.map_eq_none', pyFind_eq_none_iff, List.mem_reverse]

theorem jsonCandidate_fence_some (l i : List Char)
    (h : fenceInterior (pyStripList l) = some i) :
    jsonCandidate l = pyStripList i := by
  unfold jsonCandidate
  simp only [h]

theorem jsonCandidate_of_fence (p j r : List Char) (hp : btick ∉ p) (hj : btick ∉ j) :
    jsonCandidate (p ++ (fenceTag ++ (j ++ (fenceEnd ++ r)))) = pyStripList j := by
  have harg : p ++ (fenceTag ++ (j ++ (fenceEnd ++ r)))
      = p ++ ((fenceTag ++ (j ++ fenceEnd)) ++ r) := by
    simp [List.append_assoc]
  have h1 : (fenceTag ++ (j ++ fenceEnd)).dropWhile isPySpace
      = fenceTag ++ (j ++ fenceEnd) := by
    rw [show fenceTag ++ (j ++ fenceEnd)
      = btick :: ([btick, btick, 'j', 's', 'o', 'n'] ++ (j ++ fenceEnd)) from rfl]
    exact dropWhile_fix_of_head _ _ _ (by decide)
  have h2 : (fenceTag ++ (j ++ fenceEnd)).reverse.dropWhile isPySpace
      = (fenceTag ++ (j ++ fenceEnd)).reverse := by
    have hsh : (fenceTag ++ (j ++ fenceEnd)).reverse
        = btick :: (btick :: (btick :: (j.reverse ++ fenceTag.reverse))) := by
      rw [List.reverse_append, List.reverse_append]
      rfl
    rw [hsh]
    exact dropWhile_fix_of_head _ _ _ (by decide)
  have hsand := pyStripList_sandwich p (fenceTag ++ (j ++ fenceEnd)) r
    (by simp [fenceTag]) h1 h2
  have hstrip : pyStripList (p ++ (fenceTag ++ (j ++ (fenceEnd ++ r))))
      = p.dropWhile isPySpace
        ++ (fenceTag ++ (j ++ (fenceEnd ++ (r.reverse.dropWhile isPySpace).reverse))) := by
    rw [harg, hsand]
    simp [List.append_assoc]
  have hfree : btick ∉ p.dropWhile isPySpace :=
    fun hm => hp ((List.dropWhile_sublist isPySpace).subset hm)
  have hfi : fenceInterior (pyStripList (p ++ (fenceTag ++ (j ++ (fenceEnd ++ r)))))
      = some j := by
    rw [hstrip, fenceInterior_skip _ _ hfree, fenceInterior_at_tag _ _ hj]
  rw [jsonCandidate_fence_some _ _ hfi]

theorem jsonCandidate_of_braces (l a m b : List Char)
    (hfence : fenceInterior (pyStripList l) = none)
    (hdec : pyStripList l = a ++ ('{' :: (m ++ ('}' :: b))))
    (ha : '{' ∉ a) (hb : '}' ∉ b) :
    jsonCandidate l = '{' :: (m ++ ['}']) := by
  have h1 : pyFind '{' (pyStripList l) = some a.length := by
    rw [hdec]
    exact pyFind_append_cons _ _ _ ha
  have h2 : pyRFind '}' (pyStripList l) = some (a.length + m.length + 1) := by
    rw [hdec]
    have hre : a ++ ('{' :: (m ++ ('}' :: b))) = (a ++ ('{' :: m)) ++ ('}' :: b) := by
      simp [List.append_assoc]
    rw [hre, pyRFind_append_cons _ _ _ hb]
    have hl : (a ++ ('{' :: m)).length = a.length + m.length + 1 := by
      simp [List.length_append]
      omega
    rw [hl]
  unfold jsonCandidate
  simp only [hfence, h1, h2]
  rw [if_pos (by omega)]
  rw [hdec, List.drop_left]
  have harith : a.length + m.length + 1 + 1 - a.length = m.length + 1 + 1 := by omega
  rw [harith, List.take_succ_cons, take_append_len]
  rfl

theorem jsonCandidate_whole_none_fence (l : List Char)
    (hfence : fenceInterior (pyStripList l) = none)
    (h : pyFind '{' (pyStripList l) = none ∨ pyRFind '}' (pyStripList l) = none) :
    jsonCandidate l = pyStripList l := by
  unfold jsonCandidate
  cases h with
  | inl h1 =>
    cases hr : pyRFind '}' (pyStripList l) <;> simp only [hfence, h1, hr]
  | inr h2 =>
    cases hf : pyFind '{' (pyStripList l) <;> simp only [hfence, h2, hf]

theorem jsonCandidate_whole_of_order (l a b : List Char)
    (hfence : fenceInterior (pyStripList l) = none)
    (hdec : pyStripList l = a ++ ('}' :: b))
    (ha : '{' ∉ a) (hb : '}' ∉ b) :
    jsonCandidate l = pyStripList l := by
  have h2 : pyRFind '}' (pyStripList l) = some a.length := by
    rw [hdec]
    exact pyRFind_append_cons _ _ _ hb
  have h1 : pyFind '{' (pyStripList l) = (pyFind '{' ('}' :: b)).map (· + a.length) := by
    rw [hdec]
    exact pyFind_append_of_notin _ _ _ ha
  cases hfb : pyFind '{' ('}' :: b) with
  | none =>
    apply jsonCandidate_whole_none_fence l hfence
    left
    rw [h1, hfb]
    rfl
  | some i =>
    have h1s : pyFind '{' (pyStripList l) = some (i + a.length) := by
      rw [h1, hfb]
      rfl
    have hi : 1 ≤ i := by
      rw [pyFind_cons, if_neg (by decide)] at hfb
      cases hz : pyFind '{' b with
      | none => rw [hz] at hfb; cases hfb
      | some j =>
        rw [hz] at hfb
        simp at hfb
        omega
    unfold jsonCandidate
    simp only [hfence, h1s, h2]
    rw [if_neg (by omega)]

theorem extract_json_parse (s : String) (v : JsonVal) (hne : s.data ≠ [])
    (h : jsonParse (stripTrailingCommas (jsonCandidate s.data)) = some v) :
    extract_json s = v := by
  unfold extract_json
  rw [if_neg hne, h]

theorem extract_json_fail (s : String)
    (h : jsonParse (stripTrailingCommas (jsonCandidate s.data)) = none) :
    extract_json s = JsonVal.obj [] := by
  unfold extract_json
  by_cases hne : s.data = []
  · rw [if_pos hne]
  · rw [if_neg hne, h]

theorem effectiveAnalysis_invalid (o : PipelineOracle)
    (h1 : analysisValid o.analysis1 = false) (h2 : analysisValid o.analysis2 = false) :
    analysisValid (effectiveAnalysis o) = false := by
  simp [effectiveAnalysis, h1, h2]

theorem run_pipeline_fail (text : String) (ctx : StoryContext) (o : PipelineOracle)
    (h : analysisValid (effectiveAnalysis o) = false) :
    run_pipeline text ctx o = (failMsg, ctx) := by
  unfold run_pipeline
  simp only [h, Bool.not_false, if_true]
  cases ctx with
  | mk cc nm pc cm cs ac => simp

theorem run_pipeline_success (text : String) (ctx : StoryContext) (o : PipelineOracle)
    (h : analysisValid (effectiveAnalysis o) = true) :
    run_pipeline text ctx o = (o.adapter_output,
      stageSummary (stageRoster (stageCity (stageNames
        { ctx with chapter_count := ctx.chapter_count + 1 }
        (effectiveAnalysis o) o) (effectiveAnalysis o) o) (effectiveAnalysis o)) o) := by
  unfold run_pipeline
  simp [h]

theorem stageNames_fields (c : StoryContext) (a : ChapterAnalysis) (o : PipelineOracle) :
    (stageNames c a o).chapter_count = c.chapter_count ∧
    (stageNames c a o).primary_indian_city = c.primary_indian_city ∧
    (stageNames c a o).city_mapping = c.city_mapping ∧
    (stageNames c a o).cumulative_summary = c.cumulative_summary ∧
    (stageNames c a o).all_characters = c.all_characters := by
  unfold stageNames
  split <;> exact ⟨rfl, rfl, rfl, rfl, rfl⟩

theorem stageCityChoose_fields (c : StoryContext) (a : ChapterAnalysis) (o : PipelineOracle) :
    (stageCityChoose c a o).chapter_count = c.chapter_count ∧
    (stageCityChoose c a o).name_mapping = c.name_mapping ∧
    (stageCityChoose c a o).city_mapping = c.city_mapping ∧
    (stageCityChoose c a o).cumulative_summary = c.cumulative_summary ∧
    (stageCityChoose c a o).all_characters = c.all_characters := by
  unfold stageCityChoose
  split <;> exact ⟨rfl, rfl, rfl, rfl, rfl⟩

theorem stageCityMap_fields (c : StoryContext) (a : ChapterAnalysis) :
    (stageCityMap c a).chapter_count = c.chapter_count ∧
    (stageCityMap c a).name_mapping = c.name_mapping ∧
    (stageCityMap c a).primary_indian_city = c.primary_indian_city ∧
    (stageCityMap c a).cumulative_summary = c.cumulative_summary ∧
    (stageCityMap c a).all_characters = c.all_characters := by
  unfold stageCityMap
  split
  · split
    · exact ⟨rfl, rfl, rfl, rfl, rfl⟩
    · exact ⟨rfl, rfl, rfl, rfl, rfl⟩
  · exact ⟨rfl, rfl, rfl, rfl, rfl⟩

theorem stageRoster_fields (c : StoryContext) (a : ChapterAnalysis) :
    (stageRoster c a).chapter_count = c.chapter_count ∧
    (stageRoster c a).name_mapping = c.name_mapping ∧
    (stageRoster c a).primary_indian_city = c.primary_indian_city ∧
    (stageRoster c a).city_mapping = c.city_mapping ∧
    (stageRoster c a).cumulative_summary = c.cumulative_summary := by
  exact ⟨rfl, rfl, rfl, rfl, rfl⟩

theorem stageRoster_all_characters (c : StoryContext) (a : ChapterAnalysis) :
    (stageRoster c a).all_characters
      = c.all_characters ++ rosterAdditions a.characters c.all_characters := rfl

theorem stageSummary_fields (c : StoryContext) (o : PipelineOracle) :
    (stageSummary c o).chapter_count = c.chapter_count ∧
    (stageSummary c o).name_mapping = c.name_mapping ∧
    (stageSummary c o).primary_indian_city = c.primary_indian_city ∧
    (stageSummary c o).city_mapping = c.city_mapping ∧
    (stageSummary c o).all_characters = c.all_characters := by
  unfold stageSummary
  split <;> exact ⟨rfl, rfl, rfl, rfl, rfl⟩

theorem stageSummary_cumulative (c : StoryContext) (o : PipelineOracle) :
    (stageSummary c o).cumulative_summary
      = if o.summary_output ≠ "" then pyStrip o.summary_output else c.cumulative_summary := by
  unfold stageSummary
  split <;> simp

theorem dictAssign_mem {β : Type} (d : List (String × β)) (k : String) (v : β)
    (q : String × β) (hq : q ∈ dictAssign d k v) : q ∈ d ∨ q = (k, v) := by
  unfold dictAssign at hq
  split at hq
  · obtain ⟨p, hp, he⟩ := List.mem_map.mp hq
    by_cases hpk : p.1 = k
    · right
      rw [← he, if_pos hpk]
    · left
      rw [← he, if_neg hpk]
      exact hp
  · rw [List.mem_append] at hq
    cases hq with
    | inl hm => exact Or.inl hm
    | inr hs => exact Or.inr (by simpa using hs)

theorem dictAssign_keys {β : Type} (d : List (String × β)) (k : String) (v : β) :
    (dictAssign d k v).map Prod.fst =
      if (d.map Prod.fst).contains k then d.map Prod.fst
      else d.map Prod.fst ++ [k] := by
  unfold dictAssign
  split
  · rw [List.map_map]
    apply List.map_congr_left
    intro p _
    by_cases hpk : p.1 = k
    · simp [hpk]
    · simp [hpk]
  · simp

theorem dictAssign_keys_mem {β : Type} (d : List (String × β)) (k : String) (v : β)
    (k' : String) (h : k' ∈ (dictAssign d k v).map Prod.fst) :
    k' ∈ d.map Prod.fst ∨ k' = k := by
  rw [dictAssign_keys] at h
  split at h
  · exact Or.inl h
  · rw [List.mem_append] at h
    cases h with
    | inl hm => exact Or.inl hm
    | inr hs => exact Or.inr (by simpa using hs)

theorem dictAssign_keys_mono {β : Type} (d : List (String × β)) (k : String) (v : β)
    (k' : String) (h : k' ∈ d.map Prod.fst) :
    k' ∈ (dictAssign d k v).map Prod.fst := by
  rw [dictAssign_keys]
  split
  · exact h
  · exact List.mem_append_left _ h

theorem dictAssign_keys_self {β : Type} (d : List (String × β)) (k : String) (v : β) :
    k ∈ (dictAssign d k v).map Prod.fst := by
  rw [dictAssign_keys]
  split
  · next hcon => simpa using hcon
  · exact List.mem_append_right _ (by simp)

theorem foldl_dictAssign_keys_mono (locs : List String) (m : List (String × String))
    (city k : String) (h : k ∈ m.map Prod.fst) :
    k ∈ (locs.foldl (fun m' loc => dictAssign m' loc city) m).map Prod.fst := by
  induction locs generalizing m with
  | nil => exact h
  | cons x xs ih =>
    exact ih (dictAssign m x city) (dictAssign_keys_mono m x city k h)

theorem foldl_dictAssign_keys_self (locs : List String) (m : List (String × String))
    (city loc : String) (hloc : loc ∈ locs) :
    loc ∈ (locs.foldl (fun m' l => dictAssign m' l city) m).map Prod.fst := by
  induction locs generalizing m with
  | nil => cases hloc
  | cons x xs ih =>
    rw [List.mem_cons] at hloc
    cases hloc with
    | inl he =>
      rw [he]
      exact foldl_dictAssign_keys_mono xs _ city x (dictAssign_keys_self m x city)
    | inr hm => exact ih (dictAssign m x city) hm

theorem foldl_dictAssign_values (locs : List String) (m : List (String × String))
    (city : String) (h : ∀ q ∈ m, q.2 = city) :
    ∀ q ∈ locs.foldl (fun m' l => dictAssign m' l city) m, q.2 = city := by
  induction locs generalizing m with
  | nil => exact h
  | cons x xs ih =>
    apply ih
    intro q hq
    rcases dictAssign_mem m x city q hq with hm | he
    · exact h q hm
    · rw [he]

theorem applyNameChoices_keys (suggs : List NameSuggestion) (nm : List (String × String))
    (chs : List Nat) (k : String)
    (h : k ∈ (applyNameChoices nm suggs chs).map Prod.fst) :
    k ∈ nm.map Prod.fst ∨ ∃ s ∈ suggs, s.original_name = k := by
  induction suggs generalizing nm chs with
  | nil =>
    unfold applyNameChoices at h
    exact Or.inl h
  | cons s ss ih =>
    cases chs with
    | nil =>
      unfold applyNameChoices at h
      rcases ih _ _ h with hk | ⟨s', hs', he⟩
      · rcases dictAssign_keys_mem _ _ _ _ hk with hm | he
        · exact Or.inl hm
        · exact Or.inr ⟨s, List.mem_cons_self _ _, he.symm⟩
      · exact Or.inr ⟨s', List.mem_cons_of_mem _ hs', he⟩
    | cons c cs =>
      unfold applyNameChoices at h
      rcases ih _ _ h with hk | ⟨s', hs', he⟩
      · rcases dictAssign_keys_mem _ _ _ _ hk with hm | he
        · exact Or.inl hm
        · exact Or.inr ⟨s, List.mem_cons_self _ _, he.symm⟩
      · exact Or.inr ⟨s', List.mem_cons_of_mem _ hs', he⟩

theorem humanFilterStep_obj (ns : List (Option String)) (c : CharRec) :
    humanFilterStep ns (CharEntry.obj c)
      = if (pyToLower (c.species.getD "") = "human" && !(ns.contains c.name))
        then some c else none := rfl

theorem rosterStep_obj (ns : List (Option String)) (ch : CharRec) :
    rosterStep ns (CharEntry.obj ch)
      = if (pyTruthyOpt ch.name && !(ns.contains ch.name)) then some ch else none := rfl

theorem mem_filter_new_human (new_chars : List CharEntry) (existing : List CharRec)
    (c : CharRec) (h : c ∈ filter_new_human_characters new_chars existing) :
    CharEntry.obj c ∈ new_chars ∧ pyToLower (c.species.getD "") = "human" ∧
      (existing.map (·.name)).contains c.name = false := by
  unfold filter_new_human_characters at h
  obtain ⟨e, he, hf⟩ := List.mem_filterMap.mp h
  cases e with
  | obj c' =>
    rw [humanFilterStep_obj] at hf
    split at hf
    · next hcond =>
      injection hf with hf
      subst hf
      rw [Bool.and_eq_true] at hcond
      refine ⟨he, by simpa using hcond.1, by simpa using hcond.2⟩
    · cases hf
  | nonObj => cases hf

theorem rosterAdditions_mem_of (chars : List CharEntry) (existing : List CharRec)
    (ch : CharRec) (hc : CharEntry.obj ch ∈ chars) (h1 : pyTruthyOpt ch.name = true)
    (h2 : (existing.map (·.name)).contains ch.name = false) :
    ch ∈ rosterAdditions chars existing := by
  unfold rosterAdditions
  apply List.mem_filterMap.mpr
  refine ⟨CharEntry.obj ch, hc, ?_⟩
  rw [rosterStep_obj, if_pos]
  rw [Bool.and_eq_true]
  exact ⟨h1, by rw [h2]; rfl⟩

theorem rosterAdditions_mem (chars : List CharEntry) (existing : List CharRec)
    (ch : CharRec) (h : ch ∈ rosterAdditions chars existing) :
    CharEntry.obj ch ∈ chars ∧ pyTruthyOpt ch.name = true ∧
      (existing.map (·.name)).contains ch.name = false := by
  unfold rosterAdditions at h
  obtain ⟨e, he, hf⟩ := List.mem_filterMap.mp h
  cases e with
  | obj c' =>
    rw [rosterStep_obj] at hf
    split at hf
    · next hcond =>
      injection hf with hf
      subst hf
      rw [Bool.and_eq_true] at hcond
      exact ⟨he, hcond.1, by simpa using hcond.2⟩
    · cases hf
  | nonObj => cases hf

/-- Claim C2 (confirmed): for every chapter text and context, when both
analysis attempts yield an invalid extraction (no non-empty `characters`
list — the second attempt being the response to the fix-this-JSON
prompt), `run_pipeline` returns the failure sentinel together with a
context equal to its input (the `chapter_count` increment is rolled back
and no other field is touched), and `main`'s transcript-append guard
rejects the returned chapter, so the failed chapter is never appended. -/
theorem c2_analysis_failure_atomicity (text : String) (ctx : StoryContext)
    (o : PipelineOracle) (h1 : analysisValid o.analysis1 = false)
    (h2 : analysisValid o.analysis2 = false) :
    run_pipeline text ctx o = (failMsg, ctx) ∧
    main_append_condition (run_pipeline text ctx o).2 (run_pipeline text ctx o).1 = false := by
  have he := effectiveAnalysis_invalid o h1 h2
  have hr := run_pipeline_fail text ctx o he
  refine ⟨hr, ?_⟩
  unfold main_append_condition
  rw [hr]
  have hfs : hasSub failMsg.data "failed".data = true := by decide
  simp [hfs]

/-- Witness for C2 at a concrete oracle whose attempts both fail. -/
theorem c2_analysis_failure_atomicity_witness :
    run_pipeline "chapter one" initContext oracleBothInvalid = (failMsg, initContext) ∧
    main_append_condition (run_pipeline "chapter one" initContext oracleBothInvalid).2
      (run_pipeline "chapter one" initContext oracleBothInvalid).1 = false :=
  c2_analysis_failure_atomicity "chapter one" initContext oracleBothInvalid
    (by decide) (by decide)

/-- Claim C9 (confirmed): in every `run_pipeline` call that reaches the
summary stage (the analysis is valid), the chapter succeeds — the
adapter's output is returned verbatim — and `cumulative_summary` is
replaced by the trimmed summary-merge response when that response is
non-empty, and left exactly unchanged when it is empty (which is also
what a failed generator call produces). -/
theorem c9_summary_update (text : String) (ctx : StoryContext) (o : PipelineOracle)
    (h : analysisValid (effectiveAnalysis o) = true) :
    (run_pipeline text ctx o).1 = o.adapter_output ∧
    (o.summary_output ≠ "" →
      (run_pipeline text ctx o).2.cumulative_summary = pyStrip o.summary_output) ∧
    (o.summary_output = "" →
      (run_pipeline text ctx o).2.cumulative_summary = ctx.cumulative_summary) := by
  rw [run_pipeline_success text ctx o h]
  refine ⟨rfl, ?_, ?_⟩
  · intro hne
    rw [stageSummary_cumulative, if_pos hne]
  · intro heq
    rw [stageSummary_cumulative, if_neg (by simp [heq])]
    rw [(stageRoster_fields _ _).2.2.2.2]
    unfold stageCity
    rw [(stageCityMap_fields _ _).2.2.2.1]
    rw [(stageCityChoose_fields _ _ _).2.2.2.1]
    rw [(stageNames_fields _ _ _).2.2.2.1]

/-- Witness for C9 at a concrete successful oracle. -/
theorem c9_summary_update_witness :
    (run_pipeline "t" initContext oracleSummary).1 = oracleSummary.adapter_output ∧
    (run_pipeline "t" initContext oracleSummary).2.cumulative_summary
      = pyStrip oracleSummary.summary_output :=
  ⟨(c9_summary_update "t" initContext oracleSummary (by decide)).1,
   (c9_summary_update "t" initContext oracleSummary (by decide)).2.1 (by decide)⟩

/-- Claim C6 (confirmed): `extract_json` is a total function — the
Python original catches the only exception its parse can raise — and on
any input whose selected candidate fails to parse (in particular the
empty string and strings bearing no JSON) it returns the empty record. -/
theorem c6_extractor_totality :
    (∀ s : String, jsonParse (stripTrailingCommas (jsonCandidate s.data)) = none →
      extract_json s = JsonVal.obj []) ∧
    extract_json "" = JsonVal.obj [] ∧
    extract_json "The generator returned no payload at all." = JsonVal.obj [] := by
  refine ⟨?_, rfl, rfl⟩
  intro s h
  exact extract_json_fail s h

/-- Witness for C6 at a concrete non-JSON-bearing string. -/
theorem c6_extractor_totality_witness :
    jsonParse (stripTrailingCommas (jsonCandidate "no json here".data)) = none ∧
    extract_json "no json here" = JsonVal.obj [] :=
  ⟨rfl, c6_extractor_totality.1 "no json here" rfl⟩

/-- Claim C10 (confirmed): without a fenced block, `extract_json` takes
the substring from the first `{` to the last `}` exactly when the last
`}` lies strictly after the first `{`; when either brace is missing or
the last `}` precedes the first `{` (e.g. the input consisting of `}`
followed by `{`) the whole stripped text is the parse candidate; and
when a complete fenced block is present, the first one's interior is
used no matter what follows it. -/
theorem c10_brace_extraction_edge :
    (∀ (t : String) (a m b : List Char),
      hasSub t.data fenceTag = false →
      pyStripList t.data = a ++ ('{' :: (m ++ ('}' :: b))) →
      '{' ∉ a → '}' ∉ b →
      jsonCandidate t.data = '{' :: (m ++ ['}'])) ∧
    (∀ (t : String) (a b : List Char),
      hasSub t.data fenceTag = false →
      pyStripList t.data = a ++ ('}' :: b) →
      '{' ∉ a → '}' ∉ b →
      jsonCandidate t.data = pyStripList t.data) ∧
    (∀ t : String,
      hasSub t.data fenceTag = false →
      ('{' ∉ t.data ∨ '}' ∉ t.data) →
      jsonCandidate t.data = pyStripList t.data) ∧
    (jsonCandidate "\x7d\x7b".data = "\x7d\x7b".data ∧
      extract_json "\x7d\x7b" = JsonVal.obj []) ∧
    (∀ (p1 i1 rest : String),
      btick ∉ p1.data → btick ∉ i1.data →
      jsonCandidate (p1 ++ "```json" ++ i1 ++ "```" ++ rest).data
        = pyStripList i1.data) := by
  refine ⟨?_, ?_, ?_, ⟨rfl, rfl⟩, ?_⟩
  · intro t a m b hf hdec ha hb
    exact jsonCandidate_of_braces t.data a m b
      (fenceInterior_none_of_no_tag _ (hasSub_strip_false _ _ hf)) hdec ha hb
  · intro t a b hf hdec ha hb
    exact jsonCandidate_whole_of_order t.data a b
      (fenceInterior_none_of_no_tag _ (hasSub_strip_false _ _ hf)) hdec ha hb
  · intro t hf hbr
    apply jsonCandidate_whole_none_fence t.data
      (fenceInterior_none_of_no_tag _ (hasSub_strip_false _ _ hf))
    cases hbr with
    | inl h =>
      left
      exact (pyFind_eq_none_iff _ _).mpr (fun hm => h (mem_of_mem_pyStripList _ _ hm))
    | inr h =>
      right
      exact (pyRFind_eq_none_iff _ _).mpr (fun hm => h (mem_of_mem_pyStripList _ _ hm))
  · intro p1 i1 rest hp hi
    have hdata : (p1 ++ "```json" ++ i1 ++ "```" ++ rest).data
        = p1.data ++ (fenceTag ++ (i1.data ++ (fenceEnd ++ rest.data))) := by
      simp only [String.data_append, List.append_assoc]
      rfl
    rw [hdata]
    exact jsonCandidate_of_fence p1.data i1.data rest.data hp hi

/-- Witness for C10: each part applied at a concrete input. -/
theorem c10_brace_extraction_edge_witness :
    jsonCandidate "pre \x7b\"k\": 1\x7d post".data = '{' :: ("\"k\": 1".data ++ ['}']) ∧
    jsonCandidate "\x7d no brace pair \x7b".data = pyStripList "\x7d no brace pair \x7b".data ∧
    jsonCandidate "no braces at all".data = pyStripList "no braces at all".data ∧
    jsonCandidate ("A " ++ "```json" ++ " \x7b\"x\": 2\x7d " ++ "```"
        ++ " B ```json \x7b\"y\": 3\x7d ```").data
      = pyStripList " \x7b\"x\": 2\x7d ".data :=
  ⟨c10_brace_extraction_edge.1 "pre \x7b\"k\": 1\x7d post" "pre ".data "\"k\": 1".data
      " post".data (by decide) (by decide) (by decide) (by decide),
   c10_brace_extraction_edge.2.1 "\x7d no brace pair \x7b" [] " no brace pair \x7b".data
      (by decide) (by decide) (by decide) (by decide),
   c10_brace_extraction_edge.2.2.1 "no braces at all" (by decide) (Or.inl (by decide)),
   c10_brace_extraction_edge.2.2.2.2 "A " " \x7b\"x\": 2\x7d "
      " B ```json \x7b\"y\": 3\x7d ```" (by decide) (by decide)⟩

/-- Counterexample for C5: the input below consists of the valid JSON
object containing `"a": 1` wrapped in surrounding prose, yet
`extract_json` returns the empty record, because the prose itself
contains braces and the first-`{`-to-last-`}` span is not valid JSON.
The claim as stated, quantifying over arbitrary surrounding prose, is
therefore false. -/
theorem c5_extractor_recovery_counterexample :
    jsonParse "\x7b\"a\": 1\x7d".data = some (JsonVal.obj [("a", JsonVal.num 1)]) ∧
    "\x7boops\x7d and \x7b\"a\": 1\x7d" = "\x7boops\x7d and " ++ "\x7b\"a\": 1\x7d" ∧
    extract_json "\x7boops\x7d and \x7b\"a\": 1\x7d" = JsonVal.obj [] ∧
    JsonVal.obj [] ≠ JsonVal.obj [("a", JsonVal.num 1)] := by
  refine ⟨rfl, rfl, rfl, ?_⟩
  simp

/-- Claim C5 (corrected): the extractor recovers exactly the parsed
payload (with trailing-comma repair) when the payload sits in a complete
```json fence preceded by backtick-free text and is itself backtick-free,
or when it is a braced object wrapped in fence-free prose that carries no
`{` before it and no `}` after it; the spec's own example holds. With
arbitrary prose the recovery can fail (see the counterexample). -/
theorem c5_extractor_recovery_amended :
    (∀ (p1 j p2 : String) (v : JsonVal),
      btick ∉ p1.data → btick ∉ j.data →
      jsonParse (stripTrailingCommas (pyStripList j.data)) = some v →
      extract_json (p1 ++ "```json" ++ j ++ "```" ++ p2) = v) ∧
    (∀ (p1 j p2 : String) (v : JsonVal) (jm : List Char),
      hasSub (p1 ++ j ++ p2).data fenceTag = false →
      j.data = '{' :: (jm ++ ['}']) →
      '{' ∉ p1.data → '}' ∉ p2.data →
      jsonParse (stripTrailingCommas j.data) = some v →
      extract_json (p1 ++ j ++ p2) = v) ∧
    extract_json "Sure! ```json\n\x7b\"a\": 1,\x7d\n``` thanks"
      = JsonVal.obj [("a", JsonVal.num 1)] := by
  refine ⟨?_, ?_, rfl⟩
  · intro p1 j p2 v hp hj hparse
    have hdata : (p1 ++ "```json" ++ j ++ "```" ++ p2).data
        = p1.data ++ (fenceTag ++ (j.data ++ (fenceEnd ++ p2.data))) := by
      simp only [String.data_append, List.append_assoc]
      rfl
    have hne : (p1 ++ "```json" ++ j ++ "```" ++ p2).data ≠ [] := by
      rw [hdata]
      intro hcon
      have := congrArg List.length hcon
      simp [fenceTag] at this
    apply extract_json_parse _ _ hne
    rw [hdata, jsonCandidate_of_fence _ _ _ hp hj]
    exact hparse
  · intro p1 j p2 v jm hf hj hp1 hp2 hparse
    have hdata : (p1 ++ j ++ p2).data = p1.data ++ (j.data ++ p2.data) := by
      simp only [String.data_append, List.append_assoc]
    have hne : (p1 ++ j ++ p2).data ≠ [] := by
      rw [hdata]
      intro hcon
      have := congrArg List.length hcon
      rw [hj] at this
      simp at this
    have h1 : j.data.dropWhile isPySpace = j.data := by
      rw [hj]
      exact dropWhile_fix_of_head _ _ _ (by decide)
    have h2 : j.data.reverse.dropWhile isPySpace = j.data.reverse := by
      rw [hj]
      have hsh : ('{' :: (jm ++ ['}'])).reverse = '}' :: (jm.reverse ++ ['{']) := by
        simp
      rw [hsh]
      exact dropWhile_fix_of_head _ _ _ (by decide)
    have hsand := pyStripList_sandwich p1.data j.data p2.data
      (by rw [hj]; simp) h1 h2
    have hfence : fenceInterior (pyStripList (p1 ++ j ++ p2).data) = none :=
      fenceInterior_none_of_no_tag _ (hasSub_strip_false _ _ hf)
    have hdec : pyStripList (p1 ++ j ++ p2).data
        = (p1.data.dropWhile isPySpace)
          ++ ('{' :: (jm ++ ('}' :: (p2.data.reverse.dropWhile isPySpace).reverse))) := by
      rw [hdata, hsand, hj]
      simp [List.append_assoc]
    have hp1f : '{' ∉ p1.data.dropWhile isPySpace :=
      fun hm => hp1 ((List.dropWhile_sublist _).subset hm)
    have hp2f : '}' ∉ (p2.data.reverse.dropWhile isPySpace).reverse := by
      intro hm
      apply hp2
      have hm1 := List.mem_reverse.mp hm
      have hm2 := (List.dropWhile_sublist _).subset hm1
      exact List.mem_reverse.mp hm2
    have hcand := jsonCandidate_of_braces (p1 ++ j ++ p2).data _ jm _ hfence hdec hp1f hp2f
    apply extract_json_parse _ _ hne
    rw [hcand, show '{' :: (jm ++ ['}']) = j.data from hj.symm]
    exact hparse

/-- Witness for C5: the amended theorem's fence and prose parts applied
at concrete inputs. -/
theorem c5_extractor_recovery_witness :
    extract_json ("Note: " ++ "```json" ++ "\n\x7b\"n\": 7,\x7d\n" ++ "```" ++ " done")
      = JsonVal.obj [("n", JsonVal.num 7)] ∧
    extract_json ("see " ++ "\x7b\"n\": 7\x7d" ++ " end.")
      = JsonVal.obj [("n", JsonVal.num 7)] :=
  ⟨c5_extractor_recovery_amended.1 "Note: " "\n\x7b\"n\": 7,\x7d\n" " done"
      (JsonVal.obj [("n", JsonVal.num 7)]) (by decide) (by decide) rfl,
   c5_extractor_recovery_amended.2.1 "see " "\x7b\"n\": 7\x7d" " end."
      (JsonVal.obj [("n", JsonVal.num 7)]) "\"n\": 7".data (by decide) (by decide)
      (by decide) (by decide) rfl⟩

/-- Claim C3 (code bug): the transcript-append guard of `main` tests
`"failed" not in hindi_chapter` on the generated text itself, so a
successful chapter whose adapted text contains the substring "failed" is
counted in the saved context but never appended to the transcript: after
this run the persisted `chapter_count` is 1 while 0 blocks were
appended, violating the invariant the claim states. -/
theorem c3_transcript_consistency_bug :
    analysisValid (effectiveAnalysis oracleFailedText) = true ∧
    (run_pipeline "t" initContext oracleFailedText).1 = oracleFailedText.adapter_output ∧
    (main_step "t" oracleFailedText ⟨initContext, 0⟩).ctx.chapter_count = 1 ∧
    (main_step "t" oracleFailedText ⟨initContext, 0⟩).transcript_blocks = 0 := by
  exact ⟨by decide, rfl, by decide, by decide⟩

/-- Counterexample for C4: the roster merge computes the existing-name
set once, before its loop, so a single chapter listing the character
name "Yuki" twice produces a reachable context whose `all_characters`
holds two records with the same name. -/
theorem c4_roster_uniqueness_counterexample :
    Reachable (run_pipeline "t" initContext oracleDupChar).2 ∧
    (run_pipeline "t" initContext oracleDupChar).2.all_characters.map (·.name)
      = [some "Yuki", some "Yuki"] ∧
    ¬ ((run_pipeline "t" initContext oracleDupChar).2.all_characters.map (·.name)).Nodup := by
  refine ⟨ReachableVia.step "t" oracleDupChar initContext ReachableVia.init trivial,
    by decide, by decide⟩

/-- Claim C4 (corrected): each pipeline run appends exactly the
occurrences of analysis characters whose name is truthy and not among
the roster names before the merge, preserving order and never removing
or reordering existing records (a failed run leaves the roster
unchanged); name uniqueness is preserved provided the names appended by
the single chapter are themselves duplicate-free — deduplication is only
against the pre-chapter roster, so a chapter listing the same new name
twice appends both records (see the counterexample). -/
theorem c4_roster_merge_amended (text : String) (ctx : StoryContext) (o : PipelineOracle) :
    ((run_pipeline text ctx o).2.all_characters.take ctx.all_characters.length
      = ctx.all_characters) ∧
    (analysisValid (effectiveAnalysis o) = true →
      (run_pipeline text ctx o).2.all_characters
        = ctx.all_characters
          ++ rosterAdditions (effectiveAnalysis o).characters ctx.all_characters) ∧
    (analysisValid (effectiveAnalysis o) = false →
      (run_pipeline text ctx o).2.all_characters = ctx.all_characters) ∧
    (((ctx.all_characters.map (·.name)).Nodup ∧
      ((rosterAdditions (effectiveAnalysis o).characters ctx.all_characters).map
        (·.name)).Nodup) →
      ((run_pipeline text ctx o).2.all_characters.map (·.name)).Nodup) := by
  by_cases h : analysisValid (effectiveAnalysis o) = true
  · have hroster : (run_pipeline text ctx o).2.all_characters
        = ctx.all_characters
          ++ rosterAdditions (effectiveAnalysis o).characters ctx.all_characters := by
      rw [run_pipeline_success _ _ _ h]
      rw [(stageSummary_fields _ _).2.2.2.2, stageRoster_all_characters]
      have hc : (stageCity (stageNames
          { ctx with chapter_count := ctx.chapter_count + 1 } (effectiveAnalysis o) o)
          (effectiveAnalysis o) o).all_characters = ctx.all_characters := by
        unfold stageCity
        rw [(stageCityMap_fields _ _).2.2.2.2, (stageCityChoose_fields _ _ _).2.2.2.2,
          (stageNames_fields _ _ _).2.2.2.2]
      rw [hc]
    refine ⟨?_, fun _ => hroster, ?_, ?_⟩
    · rw [hroster, List.take_left]
    · intro hf
      rw [hf] at h
      cases h
    · rintro ⟨hn1, hn2⟩
      rw [hroster, List.map_append]
      apply List.Nodup.append hn1 hn2
      intro x hx1 hx2
      obtain ⟨ch, hch, hname⟩ := List.mem_map.mp hx2
      have hcon := (rosterAdditions_mem _ _ _ hch).2.2
      have : ch.name ∉ ctx.all_characters.map (·.name) := by simpa using hcon
      exact this (hname ▸ hx1)
  · have hf : analysisValid (effectiveAnalysis o) = false := by
      simpa using h
    have hr := run_pipeline_fail text ctx o hf
    rw [hr]
    refine ⟨List.take_length _, ?_, fun _ => rfl, ?_⟩
    · intro ht
      rw [ht] at hf
      cases hf
    · rintro ⟨hn1, _⟩
      exact hn1

/-- Witness for C4 at a concrete successful oracle. -/
theorem c4_roster_merge_amended_witness :
    (run_pipeline "t" initContext oracleSummary).2.all_characters
      = initContext.all_characters
        ++ rosterAdditions (effectiveAnalysis oracleSummary).characters
            initContext.all_characters ∧
    ((run_pipeline "t" initContext oracleSummary).2.all_characters.map (·.name)).Nodup :=
  ⟨(c4_roster_merge_amended "t" initContext oracleSummary).2.1 (by decide),
   (c4_roster_merge_amended "t" initContext oracleSummary).2.2.2 ⟨by decide, by decide⟩⟩

theorem run_pipeline_roster (text : String) (ctx : StoryContext) (o : PipelineOracle)
    (h : analysisValid (effectiveAnalysis o) = true) :
    (run_pipeline text ctx o).2.all_characters
      = ctx.all_characters
        ++ rosterAdditions (effectiveAnalysis o).characters ctx.all_characters := by
  rw [run_pipeline_success _ _ _ h]
  rw [(stageSummary_fields _ _).2.2.2.2, stageRoster_all_characters]
  have hc : (stageCity (stageNames
      { ctx with chapter_count := ctx.chapter_count + 1 } (effectiveAnalysis o) o)
      (effectiveAnalysis o) o).all_characters = ctx.all_characters := by
    unfold stageCity
    rw [(stageCityMap_fields _ _).2.2.2.2, (stageCityChoose_fields _ _ _).2.2.2.2,
      (stageNames_fields _ _ _).2.2.2.2]
  rw [hc]

theorem run_pipeline_name_mapping (text : String) (ctx : StoryContext) (o : PipelineOracle)
    (h : analysisValid (effectiveAnalysis o) = true) :
    (run_pipeline text ctx o).2.name_mapping
      = (stageNames { ctx with chapter_count := ctx.chapter_count + 1 }
          (effectiveAnalysis o) o).name_mapping := by
  rw [run_pipeline_success _ _ _ h]
  rw [(stageSummary_fields _ _).2.1, (stageRoster_fields _ _).2.1]
  unfold stageCity
  rw [(stageCityMap_fields _ _).2.1, (stageCityChoose_fields _ _ _).2.1]

/-- Counterexample for C7: the naming step writes a `name_mapping` entry
for whatever `original_name` the generator returns, so with the analysis
listing the non-human "Rex" and a generator response suggesting a name
for "Rex", the non-human character receives a mapping; the claim,
quantifying over every generator output, is therefore false. -/
theorem c7_nonhuman_exclusion_counterexample :
    (effectiveAnalysis oracleC7).characters.map
        (fun e => match e with
          | CharEntry.obj c => (c.name, c.species)
          | CharEntry.nonObj => (none, none))
      = [(some "Akira", some "human"), (some "Rex", some "animal")] ∧
    (run_pipeline "t" initContext oracleC7).2.name_mapping = [("Rex", "Ravi Kumar")] := by
  exact ⟨by decide, by decide⟩

/-- Claim C7 (corrected): the payload passed to the naming step consists
exclusively of characters whose species is case-insensitively "human";
provided every suggestion's `original_name` is the name of one of those
new human characters, every `name_mapping` key added by a run is such a
human character's name (an arbitrary generator response can instead name
a non-human — see the counterexample); and a non-human character with a
truthy unseen name is still appended to `all_characters`. -/
theorem c7_nonhuman_exclusion_amended (text : String) (ctx : StoryContext)
    (o : PipelineOracle) :
    (∀ c ∈ filter_new_human_characters (effectiveAnalysis o).characters ctx.all_characters,
      pyToLower (c.species.getD "") = "human") ∧
    ((∀ s ∈ o.name_suggestions,
        ∃ c ∈ filter_new_human_characters (effectiveAnalysis o).characters
          ctx.all_characters, c.name = some s.original_name) →
      ∀ k ∈ (run_pipeline text ctx o).2.name_mapping.map Prod.fst,
        k ∈ ctx.name_mapping.map Prod.fst ∨
        ∃ c ∈ filter_new_human_characters (effectiveAnalysis o).characters
          ctx.all_characters, c.name = some k) ∧
    (∀ ch : CharRec, analysisValid (effectiveAnalysis o) = true →
      CharEntry.obj ch ∈ (effectiveAnalysis o).characters →
      pyTruthyOpt ch.name = true →
      (ctx.all_characters.map (·.name)).contains ch.name = false →
      ch ∈ (run_pipeline text ctx o).2.all_characters) := by
  refine ⟨?_, ?_, ?_⟩
  · intro c hc
    exact (mem_filter_new_human _ _ _ hc).2.1
  · intro hhon k hk
    by_cases hv : analysisValid (effectiveAnalysis o) = true
    · rw [run_pipeline_name_mapping _ _ _ hv] at hk
      unfold stageNames at hk
      split at hk
      · exact Or.inl hk
      · rcases applyNameChoices_keys _ _ _ _ hk with hold | ⟨s, hs, he⟩
        · exact Or.inl hold
        · obtain ⟨c, hc, hname⟩ := hhon s hs
          exact Or.inr ⟨c, hc, by rw [hname, he]⟩
    · have hf : analysisValid (effectiveAnalysis o) = false := by simpa using hv
      rw [run_pipeline_fail _ _ _ hf] at hk
      exact Or.inl hk
  · intro ch hv hch h1 h2
    rw [run_pipeline_roster _ _ _ hv]
    exact List.mem_append_right _ (rosterAdditions_mem_of _ _ _ hch h1 h2)

/-- Witness for C7: the amended theorem applied at a concrete honest
oracle — the naming payload is all-human, and the non-human "Rex" is
still appended to the roster. -/
theorem c7_nonhuman_exclusion_amended_witness :
    (∀ c ∈ filter_new_human_characters (effectiveAnalysis oracleC7w).characters
        initContext.all_characters, pyToLower (c.species.getD "") = "human") ∧
    { name := some "Rex", role := some "pet", species := some "animal",
      gender := some "male" : CharRec }
      ∈ (run_pipeline "t" initContext oracleC7w).2.all_characters :=
  ⟨(c7_nonhuman_exclusion_amended "t" initContext oracleC7w).1,
   (c7_nonhuman_exclusion_amended "t" initContext oracleC7w).2.2
     { name := some "Rex", role := some "pet", species := some "animal",
       gender := some "male" }
     (by decide) (by decide) (by decide) (by decide)⟩

/-- Counterexample for C8: `name_mapping` keys come from the generator's
`original_name` fields, so a reachable context can hold the key "Bogus"
although no roster record bears that name; the claim, quantifying over
arbitrary generator outputs, is therefore false. -/
theorem c8_mapping_key_containment_counterexample :
    Reachable (run_pipeline "t" initContext oracleC8).2 ∧
    "Bogus" ∈ (run_pipeline "t" initContext oracleC8).2.name_mapping.map Prod.fst ∧
    some "Bogus" ∉ (run_pipeline "t" initContext oracleC8).2.all_characters.map (·.name) := by
  refine ⟨ReachableVia.step "t" oracleC8 initContext ReachableVia.init trivial,
    by decide, by decide⟩

/-- Claim C8 (corrected): in every context reachable by pipeline runs
whose naming responses are honest — each suggestion's `original_name` is
the non-empty name of a new human character actually passed to the
naming step — every key of `name_mapping` is the name of some record in
`all_characters`. Without that restriction the invariant fails (see the
counterexample), since the naming step trusts the generator's
`original_name` fields. -/
theorem c8_mapping_key_containment_amended (ctx : StoryContext)
    (h : ReachableVia honestNaming ctx) :
    ∀ k ∈ ctx.name_mapping.map Prod.fst,
      some k ∈ ctx.all_characters.map (·.name) := by
  induction h with
  | init =>
    intro k hk
    cases hk
  | step text o ctx hre hP ih =>
    intro k hk
    by_cases hv : analysisValid (effectiveAnalysis o) = true
    · rw [run_pipeline_roster _ _ _ hv, List.map_append]
      rw [run_pipeline_name_mapping _ _ _ hv] at hk
      unfold stageNames at hk
      split at hk
      · exact List.mem_append_left _ (ih k hk)
      · rcases applyNameChoices_keys _ _ _ _ hk with hold | ⟨s, hs, he⟩
        · exact List.mem_append_left _ (ih k hold)
        · obtain ⟨hne, c, hc, hname⟩ := hP s hs
          have hmem := mem_filter_new_human _ _ _ hc
          have htr : pyTruthyOpt c.name = true := by
            rw [hname]
            simp [pyTruthyOpt]
            exact hne
          have hadd : c ∈ rosterAdditions (effectiveAnalysis o).characters
              ctx.all_characters :=
            rosterAdditions_mem_of _ _ _ hmem.1 htr hmem.2.2
          apply List.mem_append_right
          apply List.mem_map.mpr
          exact ⟨c, hadd, by rw [hname, he]⟩
    · have hf : analysisValid (effectiveAnalysis o) = false := by simpa using hv
      rw [run_pipeline_fail _ _ _ hf] at hk ⊢
      exact ih k hk

/-- Witness for C8: the amended invariant applied after one honest run —
the mapped key "Asuka" does name a roster record. -/
theorem c8_mapping_key_containment_amended_witness :
    some "Asuka" ∈ (run_pipeline "t" initContext oracleC8w).2.all_characters.map (·.name) :=
  c8_mapping_key_containment_amended _
    (ReachableVia.step "t" oracleC8w initContext ReachableVia.init (by
      intro s hs
      refine ⟨?_, ?_⟩
      · cases hs with
        | head => decide
        | tail _ htl => cases htl
      · cases hs with
        | head => exact ⟨asukaRec, by decide, by decide⟩
        | tail _ htl => cases htl))
    "Asuka" (by decide)

theorem cities_not_empty : ∀ c ∈ ANCIENT_INDIAN_CITIES, c ≠ "" := by decide

theorem cityInv_congr (u v : StoryContext)
    (hp : u.primary_indian_city = v.primary_indian_city)
    (hc : u.city_mapping = v.city_mapping) (h : CityInv v) : CityInv u := by
  unfold CityInv at h ⊢
  rw [hp, hc]
  exact h

theorem primary_none_of_falsy (ctx : StoryContext)
    (hshape : ctx.primary_indian_city = none ∨
      ∃ c, ctx.primary_indian_city = some c ∧ c ∈ ANCIENT_INDIAN_CITIES)
    (hf : pyTruthyOpt ctx.primary_indian_city = false) :
    ctx.primary_indian_city = none := by
  rcases hshape with hn | ⟨c, hc, hmem⟩
  · exact hn
  · exfalso
    rw [hc] at hf
    simp [pyTruthyOpt] at hf
    exact cities_not_empty c hmem hf

theorem stageCityChoose_cases (c : StoryContext) (a : ChapterAnalysis) (o : PipelineOracle) :
    stageCityChoose c a o = c ∨
    (pyTruthyOpt c.primary_indian_city = false ∧
      stageCityChoose c a o
        = { c with primary_indian_city
              := some (ANCIENT_INDIAN_CITIES.get o.city_choice) }) := by
  unfold stageCityChoose
  split
  · next hcond =>
    right
    rw [Bool.and_eq_true] at hcond
    exact ⟨by simpa using hcond.1, rfl⟩
  · exact Or.inl rfl

theorem stageCityChoose_truthy (c : StoryContext) (a : ChapterAnalysis) (o : PipelineOracle)
    (hne : a.locations ≠ []) :
    pyTruthyOpt (stageCityChoose c a o).primary_indian_city = true := by
  unfold stageCityChoose
  split
  · show pyTruthyOpt (some (ANCIENT_INDIAN_CITIES.get o.city_choice)) = true
    simp [pyTruthyOpt]
    exact cities_not_empty _ (List.get_mem ANCIENT_INDIAN_CITIES o.city_choice.1 o.city_choice.2)
  · next hcond =>
    cases ht : pyTruthyOpt c.primary_indian_city
    · exfalso
      apply hcond
      rw [Bool.and_eq_true]
      refine ⟨by rw [ht]; rfl, ?_⟩
      simp [hne]
    · rfl

theorem cityInv_stageCityMap (x : StoryContext) (a : ChapterAnalysis)
    (h : CityInv x) : CityInv (stageCityMap x a) := by
  obtain ⟨hshape, hvals⟩ := h
  unfold stageCityMap
  cases hp : x.primary_indian_city with
  | none =>
    simp only [hp]
    exact ⟨hshape, hvals⟩
  | some city =>
    simp only [hp]
    split
    · next hcne =>
      have hcitymem : city ∈ ANCIENT_INDIAN_CITIES := by
        rcases hshape with hn | ⟨c', hc', hm⟩
        · rw [hn] at hp; cases hp
        · rw [hc'] at hp
          injection hp with hpe
          rw [hpe] at hm
          exact hm
      constructor
      · right
        exact ⟨city, rfl, hcitymem⟩
      · intro p hm
        have hold : ∀ q ∈ x.city_mapping, q.2 = city := by
          intro q hq
          have hv := hvals q hq
          rw [hp] at hv
          exact (Option.some.inj hv).symm
        have hval := foldl_dictAssign_values _ _ _ hold p hm
        show some city = some p.2
        rw [hval]
    · exact ⟨hshape, hvals⟩

/-- The per-chapter location-mapping step maps every truthy location of
the chapter when a truthy primary city is present. -/
theorem stageCityMap_maps (x : StoryContext) (a : ChapterAnalysis) (loc : String)
    (hx : pyTruthyOpt x.primary_indian_city = true)
    (hloc : loc ∈ a.locations) (hne : loc ≠ "") :
    loc ∈ (stageCityMap x a).city_mapping.map Prod.fst := by
  obtain ⟨city, hcity⟩ : ∃ city, x.primary_indian_city = some city := by
    cases hp : x.primary_indian_city with
    | none => rw [hp] at hx; cases hx
    | some c => exact ⟨c, rfl⟩
  have hcne : city ≠ "" := by
    rw [hcity] at hx
    simpa [pyTruthyOpt] using hx
  unfold stageCityMap
  simp only [hcity]
  rw [if_pos hcne]
  show loc ∈ ((filter_new_locations a.locations x.city_mapping).foldl
    (fun m l => dictAssign m l city) x.city_mapping).map Prod.fst
  by_cases hk : loc ∈ x.city_mapping.map Prod.fst
  · exact foldl_dictAssign_keys_mono _ _ _ _ hk
  · apply foldl_dictAssign_keys_self
    unfold filter_new_locations
    apply List.mem_filter.mpr
    refine ⟨hloc, ?_⟩
    rw [Bool.and_eq_true]
    exact ⟨by simpa using hne, by simpa using hk⟩

theorem cityInv_step (text : String) (ctx : StoryContext) (o : PipelineOracle)
    (h : CityInv ctx) : CityInv (run_pipeline text ctx o).2 := by
  by_cases hv : analysisValid (effectiveAnalysis o) = true
  · rw [run_pipeline_success _ _ _ hv]
    apply cityInv_congr _ (stageCity (stageNames
        { ctx with chapter_count := ctx.chapter_count + 1 } (effectiveAnalysis o) o)
        (effectiveAnalysis o) o)
      ((stageSummary_fields _ _).2.2.1.trans (stageRoster_fields _ _).2.2.1)
      ((stageSummary_fields _ _).2.2.2.1.trans (stageRoster_fields _ _).2.2.2.1)
    unfold stageCity
    apply cityInv_stageCityMap
    rcases stageCityChoose_cases (stageNames
        { ctx with chapter_count := ctx.chapter_count + 1 } (effectiveAnalysis o) o)
        (effectiveAnalysis o) o with he | ⟨hfalsy, he⟩
    · rw [he]
      exact cityInv_congr _ ctx (by rw [(stageNames_fields _ _ _).2.1])
        (by rw [(stageNames_fields _ _ _).2.2.1]) h
    · rw [he]
      constructor
      · right
        exact ⟨_, rfl, List.get_mem ANCIENT_INDIAN_CITIES o.city_choice.1 o.city_choice.2⟩
      · intro p hm
        exfalso
        have hmem : p ∈ ctx.city_mapping := by
          have hcm := (stageNames_fields
            { ctx with chapter_count := ctx.chapter_count + 1 }
            (effectiveAnalysis o) o).2.2.1
          exact hcm ▸ hm
        have hfalsy2 : pyTruthyOpt ctx.primary_indian_city = false := by
          have hpn := (stageNames_fields
            { ctx with chapter_count := ctx.chapter_count + 1 }
            (effectiveAnalysis o) o).2.1
          rw [hpn] at hfalsy
          exact hfalsy
        have hnone := primary_none_of_falsy ctx h.1 hfalsy2
        have hval := h.2 p hmem
        rw [hnone] at hval
        cases hval
  · rw [run_pipeline_fail _ _ _ (by simpa using hv)]
    exact h

theorem reachable_cityInv (ctx : StoryContext) (h : Reachable ctx) : CityInv ctx := by
  induction h with
  | init =>
    refine ⟨Or.inl rfl, ?_⟩
    intro p hp
    cases hp
  | step text o ctx hre _ ih => exact cityInv_step text ctx o ih

/-- Counterexample for C1: `filter_new_locations` keeps only truthy
locations, so the empty-string location mentioned by the chapter's
analysis is never given a `city_mapping` key even though a primary city
is set — the claim's "every location ... is mapped" clause is false as
stated. -/
theorem c1_single_city_counterexample :
    Reachable (run_pipeline "t" initContext oracleC1).2 ∧
    "" ∈ (effectiveAnalysis oracleC1).locations ∧
    pyTruthyOpt (run_pipeline "t" initContext oracleC1).2.primary_indian_city = true ∧
    "" ∉ (run_pipeline "t" initContext oracleC1).2.city_mapping.map Prod.fst := by
  refine ⟨ReachableVia.step "t" oracleC1 initContext ReachableVia.init trivial,
    by decide, by decide, by decide⟩

/-- Claim C1 (corrected): in every reachable context, every value stored
in `city_mapping` equals `primary_indian_city`; once the primary city is
set it is never changed by a later pipeline run; and every non-empty
location of a successfully analyzed chapter ends up as a `city_mapping`
key — the empty-string location is the one exception the code skips (see
the counterexample). -/
theorem c1_single_city_amended (ctx : StoryContext) (h : Reachable ctx) :
    (∀ p ∈ ctx.city_mapping, ctx.primary_indian_city = some p.2) ∧
    (∀ (text : String) (o : PipelineOracle) (c : String),
      ctx.primary_indian_city = some c →
      (run_pipeline text ctx o).2.primary_indian_city = some c) ∧
    (∀ (text : String) (o : PipelineOracle) (loc : String),
      analysisValid (effectiveAnalysis o) = true →
      loc ∈ (effectiveAnalysis o).locations → loc ≠ "" →
      loc ∈ (run_pipeline text ctx o).2.city_mapping.map Prod.fst) := by
  have hinv := reachable_cityInv ctx h
  refine ⟨hinv.2, ?_, ?_⟩
  · intro text o c hc
    have hcmem : c ∈ ANCIENT_INDIAN_CITIES := by
      rcases hinv.1 with hn | ⟨c', hc', hm⟩
      · rw [hn] at hc
        cases hc
      · rw [hc'] at hc
        injection hc with hcc
        rw [hcc] at hm
        exact hm
    have hcne : c ≠ "" := cities_not_empty c hcmem
    by_cases hv : analysisValid (effectiveAnalysis o) = true
    · rw [run_pipeline_success _ _ _ hv]
      rw [(stageSummary_fields _ _).2.2.1, (stageRoster_fields _ _).2.2.1]
      unfold stageCity
      rw [(stageCityMap_fields _ _).2.2.1]
      have hsp : (stageNames { ctx with chapter_count := ctx.chapter_count + 1 }
          (effectiveAnalysis o) o).primary_indian_city = some c := by
        rw [(stageNames_fields _ _ _).2.1]
        exact hc
      unfold stageCityChoose
      rw [if_neg ?_]
      · exact hsp
      · rw [hsp]
        simp [pyTruthyOpt, hcne]
    · rw [run_pipeline_fail _ _ _ (by simpa using hv)]
      exact hc
  · intro text o loc hv hloc hlocne
    rw [run_pipeline_success _ _ _ hv]
    rw [(stageSummary_fields _ _).2.2.2.1, (stageRoster_fields _ _).2.2.2.1]
    unfold stageCity
    apply stageCityMap_maps _ _ loc ?_ hloc hlocne
    exact stageCityChoose_truthy _ _ o (List.ne_nil_of_mem hloc)

/-- Witness for C1: the amended theorem's mapping clause applied at the
fresh context and a concrete oracle — "Tokyo" is mapped after the run. -/
theorem c1_single_city_amended_witness :
    "Tokyo" ∈ (run_pipeline "t" initContext oracleC1).2.city_mapping.map Prod.fst :=
  (c1_single_city_amended initContext ReachableVia.init).2.2 "t" oracleC1 "Tokyo"
    (by decide) (by decide) (by decide)
